import Mathlib

/-!
# Post aggregation of the memo web application

A shallow embedding of `app/profile/post.go` and of the notifications route
handler `web/server/profile/notifications.go`.

Conventions of the embedding:

* a Go `[]byte` is a `List Nat`; `bytes.Equal` is equality of lists, and the nil
  slice and the empty slice are the same list, as `bytes.Equal` and `len` treat them;
* a Go `uint` is a `Nat`, it is only compared and copied here;
* a pointer to a record that the code dereferences without a nil check is the
  record itself, a pointer that the code tests against nil is an `Option`;
* a `[]*Post` that a function updates in place is passed in and handed back; the
  posts of a list are records of their own, none is reached from another one;
* a function of package `db`, `cache`, `auth` or `notify` is a field of an
  environment record: a Go result `(value, err)` is an `Except`, the value being
  meaningful only when `err == nil`.
-/

namespace Memo

/-- A Go byte slice. -/
abbrev Bytes := List Nat

/-- A Go `error` as built by `jerr`: the chain of messages, outermost first. -/
structure Error where
  Messages : List String
  deriving DecidableEq, Repr

namespace jerr

/-- The call `jerr.Get(message, err)`: wraps `err` with one more message. -/
def Get (message : String) (err : Error) : Error :=
  ⟨message :: err.Messages⟩

end jerr

/-! ## Records of package `db` (the fields the code reads) -/

/-- The record `db.MemoPost`. -/
structure MemoPost where
  TxHash : Bytes
  ParentTxHash : Bytes
  PkHash : Bytes
  Message : String
  IsPoll : Bool
  IsVote : Bool
  BlockId : Nat
  deriving DecidableEq, Repr

/-- The record `db.MemoSetName`. -/
structure MemoSetName where
  PkHash : Bytes
  Name : String
  deriving DecidableEq, Repr

/-- The record `db.MemoSetPic`; `Url` stands for the columns the code only carries along. -/
structure MemoSetPic where
  PkHash : Bytes
  Url : String
  deriving DecidableEq, Repr

/-- An element of the result of `db.GetPostReplyCounts`. -/
structure TxHashCount where
  TxHash : Bytes
  Count : Nat
  deriving DecidableEq, Repr

/-- The record `db.MemoPollVote`. -/
structure MemoPollVote where
  TxHash : Bytes
  OptionTxHash : Bytes
  deriving DecidableEq, Repr

/-- The record `db.MemoPollOption`. -/
structure MemoPollOption where
  TxHash : Bytes
  PollTxHash : Bytes
  deriving DecidableEq, Repr

/-- The record `db.MemoPollQuestion`. -/
structure MemoPollQuestion where
  TxHash : Bytes
  NumOptions : Nat
  PollType : Nat
  Options : List MemoPollOption
  deriving DecidableEq, Repr

/-- The result of `db.GetVotesForOptions`, carried through unchanged. -/
abbrev Votes := List (Bytes × Nat)

/-! ## Records of package `profile` -/

/-- The record `profile.Like` (the fields `post.go` reads). -/
structure Like where
  Id : Nat
  Amount : Int
  deriving DecidableEq, Repr

/-- The record `profile.Poll` (the fields `post.go` writes). -/
structure Poll where
  Question : MemoPollQuestion
  SelfPkHash : Bytes
  Votes : Votes
  deriving DecidableEq, Repr

/-- The record `rep.Reputation`, which `post.go` never looks into. -/
structure Reputation where
  Value : Nat
  deriving DecidableEq, Repr

/-- The record `profile.Post`. -/
structure Post where
  Name : String
  Memo : MemoPost
  Parent : Option Post
  Likes : List Like
  HasLiked : Bool
  SelfPkHash : Bytes
  ReplyCount : Nat
  Replies : List Post
  Reputation : Option Reputation
  ShowMedia : Bool
  Poll : Option Poll
  VoteQuestion : Option MemoPost
  VoteOption : Option MemoPollOption
  ProfilePic : Option MemoSetPic

/-- The composite literal `&Post{Memo: memo, SelfPkHash: selfPkHash}`: every other
field has its zero value. -/
def Post.zero (memo : MemoPost) (selfPkHash : Bytes) : Post :=
  { Name := "", Memo := memo, Parent := none, Likes := [], HasLiked := false,
    SelfPkHash := selfPkHash, ReplyCount := 0, Replies := [], Reputation := none,
    ShowMedia := false, Poll := none, VoteQuestion := none, VoteOption := none,
    ProfilePic := none }

/-! ## The environment: the lookups of package `db` -/

/-- The functions of package `db` that `post.go` calls. -/
structure Db where
  GetPostsByTxHashes : List Bytes → Except Error (List MemoPost)
  GetMemoPollVotesByTxHashes : List Bytes → Except Error (List MemoPollVote)
  GetMemoPollOptionsByTxHashes : List Bytes → Except Error (List MemoPollOption)
  GetNamesForPkHashes : List Bytes → Except Error (List MemoSetName)
  GetPicsForPkHashes : List Bytes → Except Error (List MemoSetPic)
  GetPostReplyCounts : List Bytes → Except Error (List TxHashCount)
  GetPostReplyCount : Bytes → Except Error Nat
  GetNameForPkHash : Bytes → Except Error (Option MemoSetName)
  GetPicForPkHash : Bytes → Except Error (Option MemoSetPic)
  GetMemoPost : Bytes → Except Error MemoPost
  GetPostsFeedForPkHash : Bytes → Nat → Except Error (List MemoPost)
  GetMemoPollQuestion : Bytes → Except Error MemoPollQuestion
  GetVotesForOptions : Bytes → Bool → Except Error Votes
  GetMemoPollVote : Bytes → Except Error MemoPollVote
  GetMemoPollOption : Bytes → Except Error MemoPollOption
  IsRecordNotFoundError : Error → Bool

/-! ## `GetPostsByTxHashes` -/

/-- The first loop of `GetPostsByTxHashes`: the author hash of every memo post, and
the transaction hash of every memo post that is a vote. -/
def GetPostsByTxHashes.hashes (memoPosts : List MemoPost) : List Bytes × List Bytes :=
  memoPosts.foldl
    (fun acc memoPost =>
      let namePkHashes := acc.1 ++ [memoPost.PkHash]
      if memoPost.IsVote then (namePkHashes, acc.2 ++ [memoPost.TxHash])
      else (namePkHashes, acc.2))
    ([], [])

/-- The second loop of `GetPostsByTxHashes`: the option hash of every fetched vote. -/
def GetPostsByTxHashes.pollOptionTxHashes (memoPollVotes : List MemoPollVote) : List Bytes :=
  memoPollVotes.foldl
    (fun pollOptionTxHashes memoPollVote => pollOptionTxHashes ++ [memoPollVote.OptionTxHash]) []

/-- The third loop of `GetPostsByTxHashes`: the poll hash of every fetched option. -/
def GetPostsByTxHashes.pollTxHashes (memoPollOptions : List MemoPollOption) : List Bytes :=
  memoPollOptions.foldl
    (fun pollTxHashes memoPollOption => pollTxHashes ++ [memoPollOption.PollTxHash]) []

/-- The loop over `setNames` in the body of the last loop of `GetPostsByTxHashes`. -/
def GetPostsByTxHashes.name (setNames : List MemoSetName) (memoPost : MemoPost) : String :=
  setNames.foldl
    (fun name setName => if setName.PkHash = memoPost.PkHash then setName.Name else name) ""

/-- The loop over `txHashCounts` in the body of the last loop of `GetPostsByTxHashes`. -/
def GetPostsByTxHashes.replyCount (txHashCounts : List TxHashCount) (memoPost : MemoPost) :
    Nat :=
  txHashCounts.foldl
    (fun replyCount txHashCount =>
      if txHashCount.TxHash = memoPost.TxHash then txHashCount.Count else replyCount) 0

/-- The nested loops under `if memoPost.IsVote` in `GetPostsByTxHashes`; the state is
the pair `(voteQuestion, voteOption)`, both nil at the start. -/
def GetPostsByTxHashes.vote (memoPollVotes : List MemoPollVote)
    (memoPollOptions : List MemoPollOption) (memoPollQuestions : List MemoPost)
    (memoPost : MemoPost) : Option MemoPost × Option MemoPollOption :=
  if memoPost.IsVote then
    memoPollVotes.foldl
      (fun st memoPollVote =>
        if memoPollVote.TxHash = memoPost.TxHash then
          memoPollOptions.foldl
            (fun st memoPollOption =>
              if memoPollOption.TxHash = memoPollVote.OptionTxHash then
                memoPollQuestions.foldl
                  (fun st memoPollQuestion =>
                    if memoPollQuestion.TxHash = memoPollOption.PollTxHash then
                      (some memoPollQuestion, st.2)
                    else st)
                  (st.1, some memoPollOption)
              else st)
            st
        else st)
      (none, none)
  else (none, none)

/-- The last loop of `GetPostsByTxHashes`. -/
def GetPostsByTxHashes.build (selfPkHash : Bytes) (memoPosts : List MemoPost)
    (memoPollVotes : List MemoPollVote) (memoPollOptions : List MemoPollOption)
    (memoPollQuestions : List MemoPost) (setNames : List MemoSetName)
    (txHashCounts : List TxHashCount) : List Post :=
  memoPosts.foldl
    (fun posts memoPost =>
      let vote := GetPostsByTxHashes.vote memoPollVotes memoPollOptions memoPollQuestions
        memoPost
      posts ++ [{ Post.zero memoPost selfPkHash with
        Name := GetPostsByTxHashes.name setNames memoPost
        ReplyCount := GetPostsByTxHashes.replyCount txHashCounts memoPost
        VoteQuestion := vote.1
        VoteOption := vote.2 }])
    []

/-- The function `GetPostsByTxHashes`: the posts and the error it returns. -/
def GetPostsByTxHashes (d : Db) (txHashes : List Bytes) (selfPkHash : Bytes) :
    List Post × Option Error :=
  match d.GetPostsByTxHashes txHashes with
  | .error err => ([], some (jerr.Get "error getting memo posts" err))
  | .ok memoPosts =>
    let namePkHashes := (GetPostsByTxHashes.hashes memoPosts).1
    let pollVoteTxHashes := (GetPostsByTxHashes.hashes memoPosts).2
    match d.GetMemoPollVotesByTxHashes pollVoteTxHashes with
    | .error err => ([], some (jerr.Get "error getting poll votes by tx hashes" err))
    | .ok memoPollVotes =>
      let pollOptionTxHashes := GetPostsByTxHashes.pollOptionTxHashes memoPollVotes
      match d.GetMemoPollOptionsByTxHashes pollOptionTxHashes with
      | .error err => ([], some (jerr.Get "error getting poll options by tx hashes" err))
      | .ok memoPollOptions =>
        let pollTxHashes := GetPostsByTxHashes.pollTxHashes memoPollOptions
        match d.GetPostsByTxHashes pollTxHashes with
        | .error err =>
          ([], some (jerr.Get "error getting poll questions for tx hashes" err))
        | .ok memoPollQuestions =>
          match d.GetNamesForPkHashes namePkHashes with
          | .error err => ([], some (jerr.Get "error getting names for hashes" err))
          | .ok setNames =>
            match d.GetPostReplyCounts txHashes with
            | .error err => ([], some (jerr.Get "error getting post reply counts" err))
            | .ok txHashCounts =>
              (GetPostsByTxHashes.build selfPkHash memoPosts memoPollVotes memoPollOptions
                memoPollQuestions setNames txHashCounts, none)

/-! ## Methods of `Post` -/

/-- The conversion `int(x)` of a `uint` on a 64-bit platform. -/
def intOfUint (x : Nat) : Int :=
  if x % 2 ^ 64 < 2 ^ 63 then ((x % 2 ^ 64 : Nat) : Int) else ((x % 2 ^ 64 : Nat) : Int) - 2 ^ 64

/-- The method `Post.IsPoll`. -/
def Post.IsPoll (p : Post) : Bool :=
  match p.Poll with
  | none => false
  | some poll =>
    if !p.Memo.IsPoll then false
    else
      let numOptions := poll.Question.Options.length
      if numOptions ≥ 2 ∧ intOfUint poll.Question.NumOptions = (numOptions : Int) then true
      else false

/-- The method `Post.GetLastLikeId`. -/
def Post.GetLastLikeId (p : Post) : Nat :=
  p.Likes.foldl (fun lastLikeId like => if like.Id > lastLikeId then like.Id else lastLikeId) 0

/-! ## `CreatePostsFromDbPosts` -/

/-- The loop of `CreatePostsFromDbPosts`, from the records still to visit and the
posts built so far; a failed count lookup returns `nil` and the error. -/
def CreatePostsFromDbPosts.loop (d : Db) (selfPkHash : Bytes) :
    List MemoPost → List Post → List Post × Option Error
  | [], posts => (posts, none)
  | dbPost :: rest, posts =>
    match d.GetPostReplyCount dbPost.TxHash with
    | .error err => ([], some (jerr.Get "error getting post reply count" err))
    | .ok cnt =>
      CreatePostsFromDbPosts.loop d selfPkHash rest
        (posts ++ [{ Post.zero dbPost selfPkHash with ReplyCount := cnt }])

/-- The function `CreatePostsFromDbPosts`. -/
def CreatePostsFromDbPosts (d : Db) (selfPkHash : Bytes) (dbPosts : List MemoPost) :
    List Post × Option Error :=
  CreatePostsFromDbPosts.loop d selfPkHash dbPosts []

/-! ## Collecting author hashes -/

/-- The inner loop `for _, namePkHash := range namePkHashes` of the hash-collecting
loops: its body is `if bytes.Equal(namePkHash, pkHash) { continue }`, and a `continue`
goes on with the next iteration of the innermost loop, so the loop changes nothing. -/
def scanPkHashes (namePkHashes : List Bytes) (pkHash : Bytes) : Unit :=
  namePkHashes.foldl (fun _ namePkHash => if namePkHash = pkHash then () else ()) ()

/-- The hash-collecting loop, over the author hashes in the order of the posts: after
the inner loop, `namePkHashes = append(namePkHashes, pkHash)`. -/
def collectPkHashes (pkHashes : List Bytes) : List Bytes :=
  pkHashes.foldl
    (fun namePkHashes pkHash =>
      match scanPkHashes namePkHashes pkHash with
      | () => namePkHashes ++ [pkHash])
    []

/-- The list `namePkHashes` that `AttachNamesToPosts` builds from `posts`. -/
def AttachNamesToPosts.namePkHashes (posts : List Post) : List Bytes :=
  collectPkHashes (posts.map fun post => post.Memo.PkHash)

/-- The list `namePkHashes` that `AttachProfilePicsToPosts` builds from `posts`. -/
def AttachProfilePicsToPosts.namePkHashes (posts : List Post) : List Bytes :=
  collectPkHashes (posts.map fun post => post.Memo.PkHash)

/-- The list `foundPkHashes` that `GetPostsFeed` builds from `dbPosts`. -/
def GetPostsFeed.foundPkHashes (dbPosts : List MemoPost) : List Bytes :=
  collectPkHashes (dbPosts.map fun dbPost => dbPost.PkHash)

/-! ## `AttachNamesToPosts` and `AttachProfilePicsToPosts` -/

/-- The two loops at the end of `AttachNamesToPosts`: for every set-name record, every
post of the same author gets the name of the record. -/
def AttachNamesToPosts.assign (setNames : List MemoSetName) (posts : List Post) : List Post :=
  setNames.foldl
    (fun posts setName =>
      posts.map fun post =>
        if post.Memo.PkHash = setName.PkHash then { post with Name := setName.Name } else post)
    posts

/-- The function `AttachNamesToPosts`: the posts after the call and the error returned. -/
def AttachNamesToPosts (d : Db) (posts : List Post) : List Post × Option Error :=
  match d.GetNamesForPkHashes (AttachNamesToPosts.namePkHashes posts) with
  | .error err => (posts, some (jerr.Get "error getting set names for pk hashes" err))
  | .ok setNames => (AttachNamesToPosts.assign setNames posts, none)

/-- The two loops at the end of `AttachProfilePicsToPosts`. -/
def AttachProfilePicsToPosts.assign (setPics : List MemoSetPic) (posts : List Post) :
    List Post :=
  setPics.foldl
    (fun posts setPic =>
      posts.map fun post =>
        if post.Memo.PkHash = setPic.PkHash then { post with ProfilePic := some setPic }
        else post)
    posts

/-- The function `AttachProfilePicsToPosts`. -/
def AttachProfilePicsToPosts (d : Db) (posts : List Post) : List Post × Option Error :=
  match d.GetPicsForPkHashes (AttachProfilePicsToPosts.namePkHashes posts) with
  | .error err => (posts, some (jerr.Get "error getting profile pics for pk hashes" err))
  | .ok setPics => (AttachProfilePicsToPosts.assign setPics posts, none)

/-! ## `AttachPollsToPosts` -/

/-- How a part of a loop body ends. -/
inductive Flow where
  /-- Control reaches the end of the part. -/
  | fallThrough
  /-- A `continue`: the rest of the body is skipped. -/
  | continueLoop
  /-- A `return` with an error. -/
  | returnErr (err : Error)
  deriving DecidableEq, Repr

/-- The block `if post.Memo.IsPoll { ... }` in the body of the loop of
`AttachPollsToPosts`; `codePollTypeSingle` is the constant `memo.CodePollTypeSingle`. -/
def AttachPollsToPosts.poll (d : Db) (codePollTypeSingle : Nat) (post : Post) : Post × Flow :=
  if post.Memo.IsPoll then
    match d.GetMemoPollQuestion post.Memo.TxHash with
    | .error err => (post, .returnErr (jerr.Get "error getting memo poll question" err))
    | .ok question =>
      let numOptions := question.Options.length
      if numOptions < 2 ∨ intOfUint question.NumOptions ≠ (numOptions : Int) then
        (post, .continueLoop)
      else
        let post := { post with
          Poll := some { Question := question, SelfPkHash := post.SelfPkHash, Votes := [] } }
        let single := decide (question.PollType = codePollTypeSingle)
        match d.GetVotesForOptions question.TxHash single with
        | .error err =>
          if d.IsRecordNotFoundError err then (post, .continueLoop)
          else (post, .returnErr (jerr.Get "error getting votes for options" err))
        | .ok votes =>
          ({ post with Poll := post.Poll.map fun poll => { poll with Votes := votes } },
            .fallThrough)
  else (post, .fallThrough)

/-- The block `if post.Memo.IsVote { ... }` in the body of the loop of
`AttachPollsToPosts`. -/
def AttachPollsToPosts.vote (d : Db) (post : Post) : Post × Option Error :=
  if post.Memo.IsVote then
    match d.GetMemoPollVote post.Memo.TxHash with
    | .error err => (post, some (jerr.Get "error getting memo poll vote" err))
    | .ok memoPollVote =>
      match d.GetMemoPollOption memoPollVote.OptionTxHash with
      | .error err => (post, some (jerr.Get "error getting memo poll option" err))
      | .ok memoPollOption =>
        let post := { post with VoteOption := some memoPollOption }
        match d.GetMemoPost memoPollOption.PollTxHash with
        | .error err => (post, some (jerr.Get "error getting memo poll question post" err))
        | .ok memoPost => ({ post with VoteQuestion := some memoPost }, none)
  else (post, none)

/-- The body of the loop of `AttachPollsToPosts` for one post: the post afterwards,
and the error when the body returns. -/
def AttachPollsToPosts.body (d : Db) (codePollTypeSingle : Nat) (post : Post) :
    Post × Option Error :=
  match AttachPollsToPosts.poll d codePollTypeSingle post with
  | (post, .fallThrough) => AttachPollsToPosts.vote d post
  | (post, .continueLoop) => (post, none)
  | (post, .returnErr err) => (post, some err)

/-- The function `AttachPollsToPosts`: the posts after the call and the error returned;
after a `return` the posts not yet visited are as they were. -/
def AttachPollsToPosts (d : Db) (codePollTypeSingle : Nat) :
    List Post → List Post × Option Error
  | [] => ([], none)
  | post :: rest =>
    match AttachPollsToPosts.body d codePollTypeSingle post with
    | (post, some err) => (post :: rest, some err)
    | (post, none) =>
      let r := AttachPollsToPosts d codePollTypeSingle rest
      (post :: r.1, r.2)

/-! ## `AttachParentToPosts` -/

/-- A call of a lookup of package `db`, with its argument. -/
inductive Lookup where
  | GetMemoPost (txHash : Bytes)
  | GetNameForPkHash (pkHash : Bytes)
  | GetPicForPkHash (pkHash : Bytes)
  deriving DecidableEq, Repr

/-- What a run of `AttachParentToPosts` leaves behind: the posts after the call, the
error returned, and the lookups made, in the order of the calls. -/
structure ParentRun where
  posts : List Post
  err : Option Error
  lookups : List Lookup

/-- The post that `AttachParentToPosts` stores in `post.Parent`: the literal
`&Post{Name: name, Memo: parentPost, SelfPkHash: post.SelfPkHash}`, where `name` is the
name of `setName` or empty when `setName` is nil, with `ProfilePic` set when `setPic`
is not nil. -/
def AttachParentToPosts.parent (post : Post) (parentPost : MemoPost)
    (setName : Option MemoSetName) (setPic : Option MemoSetPic) : Post :=
  let name := match setName with
    | some setName => setName.Name
    | none => ""
  let parent := { Post.zero parentPost post.SelfPkHash with Name := name }
  match setPic with
  | some setPic => { parent with ProfilePic := some setPic }
  | none => parent

/-- The function `AttachParentToPosts`. A failed parent fetch is printed and the loop
goes on; a failed name or picture lookup returns, and the posts not yet visited are
as they were. -/
def AttachParentToPosts (d : Db) : List Post → ParentRun
  | [] => { posts := [], err := none, lookups := [] }
  | post :: rest =>
    if post.Memo.ParentTxHash.length = 0 then
      let r := AttachParentToPosts d rest
      { r with posts := post :: r.posts }
    else
      match d.GetMemoPost post.Memo.ParentTxHash with
      | .error _ =>
        let r := AttachParentToPosts d rest
        { posts := post :: r.posts, err := r.err,
          lookups := .GetMemoPost post.Memo.ParentTxHash :: r.lookups }
      | .ok parentPost =>
        match d.GetNameForPkHash parentPost.PkHash with
        | .error err =>
          { posts := post :: rest,
            err := some (jerr.Get "error getting name for reply hash" err),
            lookups := [.GetMemoPost post.Memo.ParentTxHash,
              .GetNameForPkHash parentPost.PkHash] }
        | .ok setName =>
          match d.GetPicForPkHash parentPost.PkHash with
          | .error err =>
            { posts := post :: rest,
              err := some (jerr.Get "error getting profile pic for hash" err),
              lookups := [.GetMemoPost post.Memo.ParentTxHash,
                .GetNameForPkHash parentPost.PkHash, .GetPicForPkHash parentPost.PkHash] }
          | .ok setPic =>
            let r := AttachParentToPosts d rest
            { posts :=
                { post with
                  Parent := some (AttachParentToPosts.parent post parentPost setName setPic) }
                  :: r.posts,
              err := r.err,
              lookups := .GetMemoPost post.Memo.ParentTxHash ::
                .GetNameForPkHash parentPost.PkHash ::
                .GetPicForPkHash parentPost.PkHash :: r.lookups }

/-! ## `GetPostsFeed` -/

/-- A Go `map[string]string` whose keys are `string(pkHash)`: the entries, the one
written last first. -/
abbrev NameMap := List (Bytes × String)

/-- The assignment `names[string(pkHash)] = name`. -/
def NameMap.set (names : NameMap) (pkHash : Bytes) (name : String) : NameMap :=
  (pkHash, name) :: names.filter fun entry => entry.1 ≠ pkHash

/-- The lookup `name, ok := names[string(pkHash)]`; `none` when `ok` is false. -/
def NameMap.get (names : NameMap) (pkHash : Bytes) : Option String :=
  (names.find? fun entry => entry.1 = pkHash).map fun entry => entry.2

/-- The second loop of `GetPostsFeed`, from the hashes still to visit and the map
built so far. An error that is not a record-not-found error returns; with a
record-not-found error the record is nil and the loop goes on. -/
def GetPostsFeed.names (d : Db) : List Bytes → NameMap → Except Error NameMap
  | [], names => .ok names
  | pkHash :: rest, names =>
    match d.GetNameForPkHash pkHash with
    | .error err =>
      if !d.IsRecordNotFoundError err then
        .error (jerr.Get "error getting name for hash" err)
      else GetPostsFeed.names d rest names
    | .ok none => GetPostsFeed.names d rest names
    | .ok (some setName) => GetPostsFeed.names d rest (names.set pkHash setName.Name)

/-- The post built in the body of the last loop of `GetPostsFeed`: the literal
`&Post{Memo: dbPost, SelfPkHash: selfPkHash, ReplyCount: cnt}`, with the name of the
author when the map has one. -/
def GetPostsFeed.post (selfPkHash : Bytes) (names : NameMap) (dbPost : MemoPost) (cnt : Nat) :
    Post :=
  let post := { Post.zero dbPost selfPkHash with ReplyCount := cnt }
  match names.get dbPost.PkHash with
  | some name => { post with Name := name }
  | none => post

/-- The last loop of `GetPostsFeed`, from the records still to visit and the posts
built so far. -/
def GetPostsFeed.posts (d : Db) (selfPkHash : Bytes) (names : NameMap) :
    List MemoPost → List Post → List Post × Option Error
  | [], posts => (posts, none)
  | dbPost :: rest, posts =>
    match d.GetPostReplyCount dbPost.TxHash with
    | .error err => ([], some (jerr.Get "error getting post reply count" err))
    | .ok cnt =>
      GetPostsFeed.posts d selfPkHash names rest
        (posts ++ [GetPostsFeed.post selfPkHash names dbPost cnt])

/-- The name that the second loop of `GetPostsFeed` records for a hash it visits: the
name of the record found, if one is found. -/
def GetPostsFeed.nameOf (d : Db) (pkHash : Bytes) : Option String :=
  match d.GetNameForPkHash pkHash with
  | .ok (some setName) => some setName.Name
  | _ => none

/-- The function `GetPostsFeed`. -/
def GetPostsFeed (d : Db) (selfPkHash : Bytes) (offset : Nat) : List Post × Option Error :=
  match d.GetPostsFeedForPkHash selfPkHash offset with
  | .error err => ([], some (jerr.Get "error getting posts for hash" err))
  | .ok dbPosts =>
    match GetPostsFeed.names d (GetPostsFeed.foundPkHashes dbPosts) [] with
    | .error err => ([], some err)
    | .ok names => GetPostsFeed.posts d selfPkHash names dbPosts []

/-! ## The notifications route -/

/-- The record `db.User` (the field the handler reads). -/
structure User where
  Id : Nat
  deriving DecidableEq, Repr

/-- What the handler of `notificationsRoute` reads from the request and calls in the
packages `auth`, `cache`, `notify` and `res`; `Feed` is the type of the result of
`notify.GetNotificationsFeed`. -/
structure Web (Feed : Type) where
  GetSessionUser : String → Except Error User
  GetUserPkHash : Nat → Except Error Bytes
  GetNotificationsFeed : Bytes → Nat → Except Error Feed
  TmplProfileNotifications : String

/-- A step of the handler that is visible outside it: a lookup, or a call on the
response `r`. -/
inductive Action (Feed : Type) where
  | GetSessionUser (cookieId : String)
  | GetUserPkHash (userId : Nat)
  | GetNotificationsFeed (pkHash : Bytes) (offset : Nat)
  /-- The call `r.Error(err, status)`. -/
  | Error (err : Error) (status : Nat)
  /-- The assignment `r.Helper[key] = value`. -/
  | SetHelper (key : String) (value : Feed)
  /-- The call `res.SetPageAndOffset(r, offset)`. -/
  | SetPageAndOffset (offset : Int)
  /-- The call `r.RenderTemplate(tmpl)`. -/
  | RenderTemplate (tmpl : String)

/-- The constant `http.StatusInternalServerError`. -/
def StatusInternalServerError : Nat := 500

/-- The conversion `uint(x)` of an `int` on a 64-bit platform. -/
def uintOfInt (x : Int) : Nat :=
  (x % 2 ^ 64).toNat

/-- The handler of `notificationsRoute`, for a request with the session cookie
`cookieId` whose URL parameter `offset` reads as `offset`: the steps it takes, in
order. -/
def notificationsRoute.Handler {Feed : Type} (w : Web Feed) (cookieId : String) (offset : Int) :
    List (Action Feed) :=
  match w.GetSessionUser cookieId with
  | .error err =>
    [.GetSessionUser cookieId,
      .Error (jerr.Get "error getting session user" err) StatusInternalServerError]
  | .ok user =>
    match w.GetUserPkHash user.Id with
    | .error err =>
      [.GetSessionUser cookieId, .GetUserPkHash user.Id,
        .Error (jerr.Get "error getting address" err) StatusInternalServerError]
    | .ok pkHash =>
      match w.GetNotificationsFeed pkHash (uintOfInt offset) with
      | .error err =>
        [.GetSessionUser cookieId, .GetUserPkHash user.Id,
          .GetNotificationsFeed pkHash (uintOfInt offset),
          .Error (jerr.Get "error getting recent notifications for user" err)
            StatusInternalServerError]
      | .ok notifications =>
        [.GetSessionUser cookieId, .GetUserPkHash user.Id,
          .GetNotificationsFeed pkHash (uintOfInt offset),
          .SetHelper "Notifications" notifications,
          .SetPageAndOffset offset,
          .RenderTemplate w.TmplProfileNotifications]

/-! ## `SetShowMediaForPosts` -/

/-- The record returned by `cache.GetUserSettings` (the field `post.go` reads, which it
only compares with `db.SettingIntegrationsAll`). -/
structure UserSettings where
  Integrations : String
  deriving DecidableEq, Repr

/-- What `SetShowMediaForPosts` uses outside `post.go`: the function
`cache.GetUserSettings` and the constant `db.SettingIntegrationsAll`. -/
structure Settings where
  GetUserSettings : Nat → Except Error UserSettings
  SettingIntegrationsAll : String

/-- What a run of `SetShowMediaForPosts` leaves behind: the posts after the call, the
error returned, and the user ids whose settings were asked for, in the order of the
calls. -/
structure ShowMediaRun where
  posts : List Post
  err : Option Error
  asked : List Nat

/-- The body of both loops of `SetShowMediaForPosts`: `post.ShowMedia = true`, and
`post.Parent.ShowMedia = true` when `post.Parent` is not nil. -/
def SetShowMediaForPosts.show (post : Post) : Post :=
  let post := { post with ShowMedia := true }
  match post.Parent with
  | some parent => { post with Parent := some { parent with ShowMedia := true } }
  | none => post

/-- The function `SetShowMediaForPosts`. -/
def SetShowMediaForPosts (c : Settings) (posts : List Post) (userId : Nat) : ShowMediaRun :=
  if userId = 0 then
    { posts := posts.map SetShowMediaForPosts.show, err := none, asked := [] }
  else
    match c.GetUserSettings userId with
    | .error err =>
      { posts := posts, err := some (jerr.Get "error getting user settings" err),
        asked := [userId] }
    | .ok settings =>
      if settings.Integrations = c.SettingIntegrationsAll then
        { posts := posts.map SetShowMediaForPosts.show, err := none, asked := [userId] }
      else { posts := posts, err := none, asked := [userId] }

/-! ## Sample data -/

/-- An environment in which every lookup fails. -/
def Db.down : Db where
  GetPostsByTxHashes := fun _ => .error ⟨["down"]⟩
  GetMemoPollVotesByTxHashes := fun _ => .error ⟨["down"]⟩
  GetMemoPollOptionsByTxHashes := fun _ => .error ⟨["down"]⟩
  GetNamesForPkHashes := fun _ => .error ⟨["down"]⟩
  GetPicsForPkHashes := fun _ => .error ⟨["down"]⟩
  GetPostReplyCounts := fun _ => .error ⟨["down"]⟩
  GetPostReplyCount := fun _ => .error ⟨["down"]⟩
  GetNameForPkHash := fun _ => .error ⟨["down"]⟩
  GetPicForPkHash := fun _ => .error ⟨["down"]⟩
  GetMemoPost := fun _ => .error ⟨["down"]⟩
  GetPostsFeedForPkHash := fun _ _ => .error ⟨["down"]⟩
  GetMemoPollQuestion := fun _ => .error ⟨["down"]⟩
  GetVotesForOptions := fun _ _ => .error ⟨["down"]⟩
  GetMemoPollVote := fun _ => .error ⟨["down"]⟩
  GetMemoPollOption := fun _ => .error ⟨["down"]⟩
  IsRecordNotFoundError := fun err => decide (err.Messages = ["record not found"])

/-- A memo post of author `pkHash` with transaction hash `txHash`. -/
def MemoPost.sample (txHash pkHash : Bytes) : MemoPost :=
  { TxHash := txHash, ParentTxHash := [], PkHash := pkHash, Message := "", IsPoll := false,
    IsVote := false, BlockId := 0 }

/-- An environment holding two posts of author `[7]`, a name for that author, and a
reply count for the first post. -/
def Db.twoPosts : Db :=
  { Db.down with
    GetPostsByTxHashes := fun txHashes =>
      .ok ([MemoPost.sample [1] [7], MemoPost.sample [2] [7]].filter fun memoPost =>
        decide (memoPost.TxHash ∈ txHashes))
    GetMemoPollVotesByTxHashes := fun _ => .ok []
    GetMemoPollOptionsByTxHashes := fun _ => .ok []
    GetNamesForPkHashes := fun _ => .ok [⟨[7], "alice"⟩]
    GetPostReplyCounts := fun _ => .ok [⟨[1], 3⟩] }

/-- A poll post with transaction hash `[1]` of author `[7]`. -/
def MemoPost.samplePoll : MemoPost :=
  { MemoPost.sample [1] [7] with IsPoll := true }

/-- An environment holding one poll question with two options, and no votes. -/
def Db.onePoll : Db :=
  { Db.down with
    GetMemoPollQuestion := fun _ => .ok ⟨[1], 2, 1, [⟨[2], [1]⟩, ⟨[3], [1]⟩]⟩
    GetVotesForOptions := fun _ _ => .ok [] }

/-- A post of author `[7]` that replies to the post `parentTxHash`. -/
def Post.sampleChild (parentTxHash : Bytes) : Post :=
  Post.zero { MemoPost.sample [1] [7] with ParentTxHash := parentTxHash } [9]

/-- An environment holding the post `[5]` of author `[8]`, whose name is set and who
has no picture. -/
def Db.oneParent : Db :=
  { Db.down with
    GetMemoPost := fun txHash =>
      if txHash = [5] then .ok (MemoPost.sample [5] [8]) else .error ⟨["record not found"]⟩
    GetNameForPkHash := fun _ => .ok (some ⟨[8], "bob"⟩)
    GetPicForPkHash := fun _ => .ok none }

/-- A web environment with one session, of the user 4 whose hash is `[7]`; the feed
holds the offset and its successor. -/
def Web.sample : Web (List Nat) where
  GetSessionUser := fun cookieId =>
    if cookieId = "cookie" then .ok ⟨4⟩ else .error ⟨["no session"]⟩
  GetUserPkHash := fun userId => if userId = 4 then .ok [7] else .error ⟨["no key"]⟩
  GetNotificationsFeed := fun _ offset => .ok [offset, offset + 1]
  TmplProfileNotifications := "notifications"

/-- A vote post with transaction hash `[1]` of author `[7]`. -/
def MemoPost.sampleVote : MemoPost :=
  { MemoPost.sample [1] [7] with IsVote := true }

/-- An environment holding the vote post `[1]`, its vote for the option `[3]`, two
option records with the hash `[3]`, of the polls `[10]` and `[11]`, and the question
post `[10]` only. -/
def Db.twoOptions : Db :=
  { Db.down with
    GetPostsByTxHashes := fun txHashes =>
      .ok ([MemoPost.sampleVote, MemoPost.sample [10] [8]].filter fun memoPost =>
        decide (memoPost.TxHash ∈ txHashes))
    GetMemoPollVotesByTxHashes := fun _ => .ok [⟨[1], [3]⟩]
    GetMemoPollOptionsByTxHashes := fun _ => .ok [⟨[3], [10]⟩, ⟨[3], [11]⟩]
    GetNamesForPkHashes := fun _ => .ok []
    GetPostReplyCounts := fun _ => .ok [] }

/-- An environment holding the vote post `[1]`, its vote for the option `[3]` of the
poll `[10]`, and the question post `[10]`. -/
def Db.oneVote : Db :=
  { Db.down with
    GetPostsByTxHashes := fun txHashes =>
      .ok ([MemoPost.sampleVote, MemoPost.sample [10] [8]].filter fun memoPost =>
        decide (memoPost.TxHash ∈ txHashes))
    GetMemoPollVotesByTxHashes := fun _ => .ok [⟨[1], [3]⟩]
    GetMemoPollOptionsByTxHashes := fun _ => .ok [⟨[3], [10]⟩]
    GetNamesForPkHashes := fun _ => .ok []
    GetPostReplyCounts := fun _ => .ok [] }

/-- The post that `GetPostsByTxHashes` builds from `MemoPost.sampleVote` when the vote,
the option `[3]` of the poll `[10]` and the question `[10]` are fetched. -/
def Post.sampleVoted : Post :=
  { Post.zero MemoPost.sampleVote [] with
    VoteQuestion := some (MemoPost.sample [10] [8])
    VoteOption := some ⟨[3], [10]⟩ }

/-- An environment whose feed holds a post of author `[7]`, who has set the name
alice, and a post of author `[8]`, who has no name record. -/
def Db.twoAuthors : Db :=
  { Db.down with
    GetPostsFeedForPkHash := fun _ _ => .ok [MemoPost.sample [1] [7], MemoPost.sample [2] [8]]
    GetNameForPkHash := fun pkHash =>
      if pkHash = [7] then .ok (some ⟨[7], "alice"⟩) else .error ⟨["record not found"]⟩
    GetPostReplyCount := fun _ => .ok 0 }

/-- Settings in which the user 4 shows all media and the user 5 hides them; no other
user has settings. -/
def Settings.sample : Settings where
  GetUserSettings := fun userId =>
    if userId = 4 then .ok ⟨"all"⟩
    else if userId = 5 then .ok ⟨"hide"⟩
    else .error ⟨["no settings"]⟩
  SettingIntegrationsAll := "all"

/-! ## Lemmas on the loops -/

/-- A loop that appends one element per iteration builds a `map`. -/
theorem foldl_append_map {α β : Type} (f : α → β) (l : List α) (init : List β) :
    l.foldl (fun acc a => acc ++ [f a]) init = init ++ l.map f := by
  induction l generalizing init with
  | nil => simp
  | cons a t ih => simp [ih]

/-- A loop that overwrites a variable at every matching element leaves the value of
the last matching element, and the initial value when no element matches. -/
theorem foldl_overwrite {α β : Type} (p : α → Prop) [DecidablePred p] (g : α → β)
    (l : List α) (init : β) :
    l.foldl (fun acc a => if p a then g a else acc) init
      = ((l.reverse.find? fun a => decide (p a)).map g).getD init := by
  induction l generalizing init with
  | nil => simp
  | cons a t ih =>
    rw [List.foldl_cons, ih, List.reverse_cons, List.find?_append]
    cases h : t.reverse.find? fun a => decide (p a) with
    | some b => simp
    | none =>
      by_cases hp : p a <;> simp [hp]

/-- The value left by an overwriting loop belongs to a matching element, or is the
initial value when no element matches. -/
theorem foldl_overwrite_cases {α β : Type} (p : α → Prop) [DecidablePred p] (g : α → β)
    (l : List α) (init : β) :
    (∃ a ∈ l, p a ∧ l.foldl (fun acc a => if p a then g a else acc) init = g a) ∨
      ((∀ a ∈ l, ¬ p a) ∧ l.foldl (fun acc a => if p a then g a else acc) init = init) := by
  rw [foldl_overwrite]
  cases h : l.reverse.find? fun a => decide (p a) with
  | some b =>
    left
    refine ⟨b, ?_, ?_, by simp⟩
    · simpa using List.mem_of_find?_eq_some h
    · simpa using List.find?_some h
  | none =>
    right
    refine ⟨?_, by simp⟩
    intro a ha
    have := List.find?_eq_none.mp h a (by simpa using ha)
    simpa using this

/-- The last loop of `GetPostsByTxHashes` builds one post per memo post, in order. -/
theorem GetPostsByTxHashes.build_eq (selfPkHash : Bytes) (memoPosts : List MemoPost)
    (memoPollVotes : List MemoPollVote) (memoPollOptions : List MemoPollOption)
    (memoPollQuestions : List MemoPost) (setNames : List MemoSetName)
    (txHashCounts : List TxHashCount) :
    GetPostsByTxHashes.build selfPkHash memoPosts memoPollVotes memoPollOptions
        memoPollQuestions setNames txHashCounts
      = memoPosts.map fun memoPost =>
          { Post.zero memoPost selfPkHash with
            Name := GetPostsByTxHashes.name setNames memoPost
            ReplyCount := GetPostsByTxHashes.replyCount txHashCounts memoPost
            VoteQuestion := (GetPostsByTxHashes.vote memoPollVotes memoPollOptions
              memoPollQuestions memoPost).1
            VoteOption := (GetPostsByTxHashes.vote memoPollVotes memoPollOptions
              memoPollQuestions memoPost).2 } := by
  unfold GetPostsByTxHashes.build
  rw [foldl_append_map]
  simp

/-- When its six lookups succeed, `GetPostsByTxHashes` returns what its last loop
builds, and no error. -/
theorem GetPostsByTxHashes.eq_build (d : Db) (txHashes : List Bytes) (selfPkHash : Bytes)
    (memoPosts : List MemoPost) (memoPollVotes : List MemoPollVote)
    (memoPollOptions : List MemoPollOption) (memoPollQuestions : List MemoPost)
    (setNames : List MemoSetName) (txHashCounts : List TxHashCount)
    (hPosts : d.GetPostsByTxHashes txHashes = .ok memoPosts)
    (hVotes : d.GetMemoPollVotesByTxHashes (GetPostsByTxHashes.hashes memoPosts).2
      = .ok memoPollVotes)
    (hOptions : d.GetMemoPollOptionsByTxHashes
      (GetPostsByTxHashes.pollOptionTxHashes memoPollVotes) = .ok memoPollOptions)
    (hQuestions : d.GetPostsByTxHashes (GetPostsByTxHashes.pollTxHashes memoPollOptions)
      = .ok memoPollQuestions)
    (hNames : d.GetNamesForPkHashes (GetPostsByTxHashes.hashes memoPosts).1 = .ok setNames)
    (hCounts : d.GetPostReplyCounts txHashes = .ok txHashCounts) :
    GetPostsByTxHashes d txHashes selfPkHash
      = (GetPostsByTxHashes.build selfPkHash memoPosts memoPollVotes memoPollOptions
          memoPollQuestions setNames txHashCounts, none) := by
  unfold GetPostsByTxHashes
  simp only [hPosts, hVotes, hOptions, hQuestions, hNames, hCounts]

/-- The last matching element, found from the end, is the last element of the
matching sublist. -/
theorem find?_reverse_eq_getLast?_filter {α : Type} (p : α → Bool) (l : List α) :
    l.reverse.find? p = (l.filter p).getLast? := by
  simp

/-- The hash-collecting loop keeps every hash it is given: the inner loop has no
effect on `namePkHashes`. -/
theorem collectPkHashes_eq (pkHashes : List Bytes) : collectPkHashes pkHashes = pkHashes := by
  unfold collectPkHashes
  have h := foldl_append_map (fun pkHash : Bytes => pkHash) pkHashes []
  simpa using h

/-- The nested loops of `AttachNamesToPosts`, post by post: each post runs through
the set-name records in order. -/
theorem AttachNamesToPosts.assign_eq (setNames : List MemoSetName) (posts : List Post) :
    AttachNamesToPosts.assign setNames posts
      = posts.map fun post =>
          { post with
            Name := setNames.foldl
              (fun name setName => if post.Memo.PkHash = setName.PkHash then setName.Name
                else name)
              post.Name } := by
  unfold AttachNamesToPosts.assign
  induction setNames generalizing posts with
  | nil =>
    rw [List.foldl_nil]
    exact (List.map_id'' (fun post => by cases post; rfl) posts).symm
  | cons setName rest ih =>
    rw [List.foldl_cons, ih, List.map_map]
    apply List.map_congr_left
    intro post _
    by_cases h : post.Memo.PkHash = setName.PkHash <;> simp [h]

/-- The loop of `CreatePostsFromDbPosts` when every count lookup succeeds. -/
theorem CreatePostsFromDbPosts.loop_ok (d : Db) (selfPkHash : Bytes)
    (dbPosts : List MemoPost) (posts : List Post)
    (h : ∀ dbPost ∈ dbPosts, ∃ cnt, d.GetPostReplyCount dbPost.TxHash = .ok cnt) :
    ∃ built, CreatePostsFromDbPosts.loop d selfPkHash dbPosts posts = (posts ++ built, none) ∧
      List.Forall₂
        (fun dbPost post => ∃ cnt, d.GetPostReplyCount dbPost.TxHash = .ok cnt ∧
          post = { Post.zero dbPost selfPkHash with ReplyCount := cnt })
        dbPosts built := by
  induction dbPosts generalizing posts with
  | nil => exact ⟨[], by simp [CreatePostsFromDbPosts.loop], List.Forall₂.nil⟩
  | cons dbPost rest ih =>
    obtain ⟨cnt, hcnt⟩ := h dbPost (List.mem_cons_self _ _)
    obtain ⟨built, hbuilt, hrel⟩ :=
      ih (posts ++ [{ Post.zero dbPost selfPkHash with ReplyCount := cnt }])
        (fun m hm => h m (List.mem_cons_of_mem _ hm))
    refine ⟨{ Post.zero dbPost selfPkHash with ReplyCount := cnt } :: built, ?_,
      List.Forall₂.cons ⟨cnt, hcnt, rfl⟩ hrel⟩
    simp only [CreatePostsFromDbPosts.loop, hcnt, hbuilt, List.append_assoc,
      List.singleton_append]

/-- The loop of `CreatePostsFromDbPosts` when some count lookup fails. -/
theorem CreatePostsFromDbPosts.loop_error (d : Db) (selfPkHash : Bytes)
    (dbPosts : List MemoPost) (posts : List Post)
    (h : ∃ dbPost ∈ dbPosts, ∃ err, d.GetPostReplyCount dbPost.TxHash = .error err) :
    (CreatePostsFromDbPosts.loop d selfPkHash dbPosts posts).1 = [] ∧
      (CreatePostsFromDbPosts.loop d selfPkHash dbPosts posts).2 ≠ none := by
  induction dbPosts generalizing posts with
  | nil => simp at h
  | cons dbPost rest ih =>
    cases hcnt : d.GetPostReplyCount dbPost.TxHash with
    | error err => simp [CreatePostsFromDbPosts.loop, hcnt]
    | ok cnt =>
      simp only [CreatePostsFromDbPosts.loop, hcnt]
      apply ih
      obtain ⟨m, hm, err, herr⟩ := h
      rcases List.mem_cons.mp hm with rfl | hm
      · rw [hcnt] at herr
        cases herr
      · exact ⟨m, hm, err, herr⟩

/-- The loop of `GetLastLikeId` from a start value: an upper bound of the start value
and of every id, and one of them. -/
theorem GetLastLikeId.foldl_spec (likes : List Like) (init : Nat) :
    init ≤ likes.foldl
        (fun lastLikeId like => if like.Id > lastLikeId then like.Id else lastLikeId) init ∧
    (∀ like ∈ likes, like.Id ≤ likes.foldl
        (fun lastLikeId like => if like.Id > lastLikeId then like.Id else lastLikeId) init) ∧
    (likes.foldl
        (fun lastLikeId like => if like.Id > lastLikeId then like.Id else lastLikeId) init = init ∨
      ∃ like ∈ likes, like.Id = likes.foldl
        (fun lastLikeId like => if like.Id > lastLikeId then like.Id else lastLikeId) init) := by
  induction likes generalizing init with
  | nil => simp
  | cons like rest ih =>
    simp only [List.foldl_cons, List.mem_cons, forall_eq_or_imp, exists_eq_or_imp]
    obtain ⟨h1, h2, h3⟩ := ih (if like.Id > init then like.Id else init)
    have hstep : init ≤ (if like.Id > init then like.Id else init) ∧
        like.Id ≤ (if like.Id > init then like.Id else init) := by
      split_ifs <;> omega
    refine ⟨Nat.le_trans hstep.1 h1, ⟨Nat.le_trans hstep.2 h1, h2⟩, ?_⟩
    · rcases h3 with h3 | ⟨l, hl, h3⟩
      · by_cases hgt : like.Id > init
        · right; left
          rw [h3, if_pos hgt]
        · left
          rw [h3, if_neg hgt]
      · exact Or.inr (Or.inr ⟨l, hl, h3⟩)

/-- On a `uint` and a slice length, `int(x)` is the number itself. -/
theorem intOfUint_eq_iff (x n : Nat) (hx : x < 2 ^ 64) (hn : n < 2 ^ 63) :
    intOfUint x = (n : Int) ↔ x = n := by
  unfold intOfUint
  rw [Nat.mod_eq_of_lt hx]
  split_ifs with h <;> omega

/-- The vote block of `AttachPollsToPosts` writes `VoteOption` and `VoteQuestion` only. -/
theorem AttachPollsToPosts.vote_frame (d : Db) (post : Post) :
    (AttachPollsToPosts.vote d post).1.Poll = post.Poll ∧
    (AttachPollsToPosts.vote d post).1.Memo = post.Memo ∧
    (AttachPollsToPosts.vote d post).1.SelfPkHash = post.SelfPkHash := by
  unfold AttachPollsToPosts.vote
  split_ifs
  · repeat' split
    all_goals exact ⟨rfl, rfl, rfl⟩
  · exact ⟨rfl, rfl, rfl⟩

/-- The method `IsPoll`, as a condition on the post. -/
theorem Post.IsPoll_iff (p : Post) :
    p.IsPoll = true ↔ ∃ poll, p.Poll = some poll ∧ p.Memo.IsPoll = true ∧
      2 ≤ poll.Question.Options.length ∧
      intOfUint poll.Question.NumOptions = (poll.Question.Options.length : Int) := by
  unfold Post.IsPoll
  cases p.Poll with
  | none => simp
  | some poll =>
    cases p.Memo.IsPoll <;> simp

/-- The poll block of `AttachPollsToPosts` on a poll post without a poll, when it does
not return. -/
theorem AttachPollsToPosts.poll_spec (d : Db) (codePollTypeSingle : Nat) (post : Post)
    (hIsPoll : post.Memo.IsPoll = true) (hNil : post.Poll = none)
    (hOk : ∀ err, (AttachPollsToPosts.poll d codePollTypeSingle post).2 ≠ .returnErr err) :
    (AttachPollsToPosts.poll d codePollTypeSingle post).1.SelfPkHash = post.SelfPkHash ∧
    (AttachPollsToPosts.poll d codePollTypeSingle post).1.Memo = post.Memo ∧
    ∃ question, d.GetMemoPollQuestion post.Memo.TxHash = .ok question ∧
      ((AttachPollsToPosts.poll d codePollTypeSingle post).1.Poll.isSome = true ↔
        2 ≤ question.Options.length ∧
          intOfUint question.NumOptions = (question.Options.length : Int)) ∧
      ∀ poll, (AttachPollsToPosts.poll d codePollTypeSingle post).1.Poll = some poll →
        poll.SelfPkHash = post.SelfPkHash ∧ poll.Question = question := by
  unfold AttachPollsToPosts.poll at *
  simp only [hIsPoll, if_true] at *
  cases hq : d.GetMemoPollQuestion post.Memo.TxHash with
  | error err => simp [hq] at hOk
  | ok question =>
    simp only [hq] at hOk ⊢
    by_cases hskip : question.Options.length < 2 ∨
        intOfUint question.NumOptions ≠ (question.Options.length : Int)
    · simp only [hskip, if_true] at hOk ⊢
      refine ⟨trivial, trivial, question, rfl, ?_, ?_⟩
      · simp only [hNil]
        constructor
        · intro h; cases h
        · intro h; rcases hskip with h1 | h2
          · omega
          · exact absurd h.2 h2
      · intro poll hpoll
        rw [hNil] at hpoll
        cases hpoll
    · simp only [hskip, if_false] at hOk ⊢
      have hcond : 2 ≤ question.Options.length ∧
          intOfUint question.NumOptions = (question.Options.length : Int) := by
        constructor
        · by_contra h; exact hskip (Or.inl (by omega))
        · by_contra h; exact hskip (Or.inr h)
      cases hv : d.GetVotesForOptions question.TxHash
          (decide (question.PollType = codePollTypeSingle)) with
      | error err =>
        simp only [hv] at hOk ⊢
        by_cases hnf : d.IsRecordNotFoundError err = true
        · simp only [hnf, if_true] at hOk ⊢
          refine ⟨trivial, trivial, question, rfl, ?_, ?_⟩
          · simp [hcond]
          · intro poll hpoll
            simp at hpoll
            subst hpoll
            exact ⟨rfl, rfl⟩
        · simp [hnf] at hOk
      | ok votes =>
        simp only [hv] at hOk ⊢
        refine ⟨trivial, trivial, question, rfl, ?_, ?_⟩
        · simp [hcond]
        · intro poll hpoll
          simp at hpoll
          subst hpoll
          exact ⟨rfl, rfl⟩

/-- The body of the loop of `AttachPollsToPosts` on a poll post without a poll, when it
does not return. -/
theorem AttachPollsToPosts.body_spec (d : Db) (codePollTypeSingle : Nat) (post : Post)
    (hIsPoll : post.Memo.IsPoll = true) (hNil : post.Poll = none)
    (hOk : (AttachPollsToPosts.body d codePollTypeSingle post).2 = none) :
    (AttachPollsToPosts.body d codePollTypeSingle post).1.SelfPkHash = post.SelfPkHash ∧
    (AttachPollsToPosts.body d codePollTypeSingle post).1.Memo = post.Memo ∧
    ∃ question, d.GetMemoPollQuestion post.Memo.TxHash = .ok question ∧
      ((AttachPollsToPosts.body d codePollTypeSingle post).1.Poll.isSome = true ↔
        2 ≤ question.Options.length ∧
          intOfUint question.NumOptions = (question.Options.length : Int)) ∧
      ∀ poll, (AttachPollsToPosts.body d codePollTypeSingle post).1.Poll = some poll →
        poll.SelfPkHash = post.SelfPkHash ∧ poll.Question = question := by
  have hspec := AttachPollsToPosts.poll_spec d codePollTypeSingle post hIsPoll hNil
  unfold AttachPollsToPosts.body at hOk ⊢
  rcases hpoll : AttachPollsToPosts.poll d codePollTypeSingle post with ⟨p, flow⟩
  rw [hpoll] at hspec hOk
  cases flow with
  | fallThrough =>
    simp only at hOk ⊢
    obtain ⟨h1, h2, h3⟩ := AttachPollsToPosts.vote_frame d p
    obtain ⟨s1, s2, question, s3, s4, s5⟩ := hspec (by simp)
    simp only at s1 s2 s4 s5
    rw [h1, h2, h3]
    exact ⟨s1, s2, question, s3, s4, s5⟩
  | continueLoop => exact hspec (by simp)
  | returnErr err => simp at hOk

/-- A post without a parent hash is passed over. -/
theorem AttachParentToPosts.cons_skip (d : Db) (post : Post) (rest : List Post)
    (h : post.Memo.ParentTxHash = []) :
    AttachParentToPosts d (post :: rest)
      = { posts := post :: (AttachParentToPosts d rest).posts,
          err := (AttachParentToPosts d rest).err,
          lookups := (AttachParentToPosts d rest).lookups } := by
  rw [AttachParentToPosts]
  simp [h]

/-- A post whose parent fetch fails is passed over, after the fetch. -/
theorem AttachParentToPosts.cons_fetch_error (d : Db) (post : Post) (rest : List Post)
    (err : Error) (h : post.Memo.ParentTxHash ≠ [])
    (hFetch : d.GetMemoPost post.Memo.ParentTxHash = .error err) :
    AttachParentToPosts d (post :: rest)
      = { posts := post :: (AttachParentToPosts d rest).posts,
          err := (AttachParentToPosts d rest).err,
          lookups := .GetMemoPost post.Memo.ParentTxHash ::
            (AttachParentToPosts d rest).lookups } := by
  rw [AttachParentToPosts]
  simp [h, hFetch]

/-- A failed name lookup returns. -/
theorem AttachParentToPosts.cons_name_error (d : Db) (post : Post) (rest : List Post)
    (parentPost : MemoPost) (err : Error) (h : post.Memo.ParentTxHash ≠ [])
    (hFetch : d.GetMemoPost post.Memo.ParentTxHash = .ok parentPost)
    (hName : d.GetNameForPkHash parentPost.PkHash = .error err) :
    AttachParentToPosts d (post :: rest)
      = { posts := post :: rest,
          err := some (jerr.Get "error getting name for reply hash" err),
          lookups := [.GetMemoPost post.Memo.ParentTxHash,
            .GetNameForPkHash parentPost.PkHash] } := by
  rw [AttachParentToPosts]
  simp [h, hFetch, hName]

/-- A failed picture lookup returns. -/
theorem AttachParentToPosts.cons_pic_error (d : Db) (post : Post) (rest : List Post)
    (parentPost : MemoPost) (setName : Option MemoSetName) (err : Error)
    (h : post.Memo.ParentTxHash ≠ [])
    (hFetch : d.GetMemoPost post.Memo.ParentTxHash = .ok parentPost)
    (hName : d.GetNameForPkHash parentPost.PkHash = .ok setName)
    (hPic : d.GetPicForPkHash parentPost.PkHash = .error err) :
    AttachParentToPosts d (post :: rest)
      = { posts := post :: rest,
          err := some (jerr.Get "error getting profile pic for hash" err),
          lookups := [.GetMemoPost post.Memo.ParentTxHash,
            .GetNameForPkHash parentPost.PkHash, .GetPicForPkHash parentPost.PkHash] } := by
  rw [AttachParentToPosts]
  simp [h, hFetch, hName, hPic]

/-- With the three lookups succeeding the parent is attached and the loop goes on. -/
theorem AttachParentToPosts.cons_attach (d : Db) (post : Post) (rest : List Post)
    (parentPost : MemoPost) (setName : Option MemoSetName) (setPic : Option MemoSetPic)
    (h : post.Memo.ParentTxHash ≠ [])
    (hFetch : d.GetMemoPost post.Memo.ParentTxHash = .ok parentPost)
    (hName : d.GetNameForPkHash parentPost.PkHash = .ok setName)
    (hPic : d.GetPicForPkHash parentPost.PkHash = .ok setPic) :
    AttachParentToPosts d (post :: rest)
      = { posts :=
            { post with
              Parent := some (AttachParentToPosts.parent post parentPost setName setPic) }
              :: (AttachParentToPosts d rest).posts,
          err := (AttachParentToPosts d rest).err,
          lookups := .GetMemoPost post.Memo.ParentTxHash ::
            .GetNameForPkHash parentPost.PkHash ::
            .GetPicForPkHash parentPost.PkHash :: (AttachParentToPosts d rest).lookups } := by
  rw [AttachParentToPosts]
  simp [h, hFetch, hName, hPic]

/-- The list of posts keeps its length. -/
theorem AttachParentToPosts.length_posts (d : Db) (posts : List Post) :
    (AttachParentToPosts d posts).posts.length = posts.length := by
  induction posts with
  | nil => simp [AttachParentToPosts]
  | cons post rest ih =>
    by_cases h : post.Memo.ParentTxHash = []
    · simp [AttachParentToPosts.cons_skip d post rest h, ih]
    · cases hFetch : d.GetMemoPost post.Memo.ParentTxHash with
      | error err => simp [AttachParentToPosts.cons_fetch_error d post rest err h hFetch, ih]
      | ok parentPost =>
        cases hName : d.GetNameForPkHash parentPost.PkHash with
        | error err =>
          simp [AttachParentToPosts.cons_name_error d post rest parentPost err h hFetch hName]
        | ok setName =>
          cases hPic : d.GetPicForPkHash parentPost.PkHash with
          | error err =>
            simp [AttachParentToPosts.cons_pic_error d post rest parentPost setName err h
              hFetch hName hPic]
          | ok setPic =>
            simp [AttachParentToPosts.cons_attach d post rest parentPost setName setPic h
              hFetch hName hPic, ih]

/-- After a first part that runs through, the loop runs on the second part as on a
list of its own. -/
theorem AttachParentToPosts.append_ok (d : Db) (pre posts : List Post)
    (hpre : (AttachParentToPosts d pre).err = none) :
    AttachParentToPosts d (pre ++ posts)
      = { posts := (AttachParentToPosts d pre).posts ++ (AttachParentToPosts d posts).posts,
          err := (AttachParentToPosts d posts).err,
          lookups := (AttachParentToPosts d pre).lookups ++
            (AttachParentToPosts d posts).lookups } := by
  induction pre with
  | nil => simp [AttachParentToPosts]
  | cons post rest ih =>
    rw [List.cons_append]
    by_cases h : post.Memo.ParentTxHash = []
    · rw [AttachParentToPosts.cons_skip d post rest h] at hpre ⊢
      rw [AttachParentToPosts.cons_skip d post (rest ++ posts) h]
      simp [ih hpre]
    · cases hFetch : d.GetMemoPost post.Memo.ParentTxHash with
      | error err =>
        rw [AttachParentToPosts.cons_fetch_error d post rest err h hFetch] at hpre ⊢
        rw [AttachParentToPosts.cons_fetch_error d post (rest ++ posts) err h hFetch]
        simp [ih hpre]
      | ok parentPost =>
        cases hName : d.GetNameForPkHash parentPost.PkHash with
        | error err =>
          rw [AttachParentToPosts.cons_name_error d post rest parentPost err h hFetch hName]
            at hpre
          simp at hpre
        | ok setName =>
          cases hPic : d.GetPicForPkHash parentPost.PkHash with
          | error err =>
            rw [AttachParentToPosts.cons_pic_error d post rest parentPost setName err h
              hFetch hName hPic] at hpre
            simp at hpre
          | ok setPic =>
            rw [AttachParentToPosts.cons_attach d post rest parentPost setName setPic h
              hFetch hName hPic] at hpre ⊢
            rw [AttachParentToPosts.cons_attach d post (rest ++ posts) parentPost setName
              setPic h hFetch hName hPic]
            simp [ih hpre]

/-- After a first part that returns, the second part is not visited. -/
theorem AttachParentToPosts.append_error (d : Db) (pre posts : List Post) (err : Error)
    (hpre : (AttachParentToPosts d pre).err = some err) :
    AttachParentToPosts d (pre ++ posts)
      = { posts := (AttachParentToPosts d pre).posts ++ posts, err := some err,
          lookups := (AttachParentToPosts d pre).lookups } := by
  induction pre with
  | nil => simp [AttachParentToPosts] at hpre
  | cons post rest ih =>
    rw [List.cons_append]
    by_cases h : post.Memo.ParentTxHash = []
    · rw [AttachParentToPosts.cons_skip d post rest h] at hpre ⊢
      rw [AttachParentToPosts.cons_skip d post (rest ++ posts) h]
      simp [ih hpre]
    · cases hFetch : d.GetMemoPost post.Memo.ParentTxHash with
      | error e =>
        rw [AttachParentToPosts.cons_fetch_error d post rest e h hFetch] at hpre ⊢
        rw [AttachParentToPosts.cons_fetch_error d post (rest ++ posts) e h hFetch]
        simp [ih hpre]
      | ok parentPost =>
        cases hName : d.GetNameForPkHash parentPost.PkHash with
        | error e =>
          rw [AttachParentToPosts.cons_name_error d post rest parentPost e h hFetch hName]
            at hpre ⊢
          rw [AttachParentToPosts.cons_name_error d post (rest ++ posts) parentPost e h
            hFetch hName]
          simp at hpre ⊢
          exact hpre
        | ok setName =>
          cases hPic : d.GetPicForPkHash parentPost.PkHash with
          | error e =>
            rw [AttachParentToPosts.cons_pic_error d post rest parentPost setName e h
              hFetch hName hPic] at hpre ⊢
            rw [AttachParentToPosts.cons_pic_error d post (rest ++ posts) parentPost setName e
              h hFetch hName hPic]
            simp at hpre ⊢
            exact hpre
          | ok setPic =>
            rw [AttachParentToPosts.cons_attach d post rest parentPost setName setPic h
              hFetch hName hPic] at hpre ⊢
            rw [AttachParentToPosts.cons_attach d post (rest ++ posts) parentPost setName
              setPic h hFetch hName hPic]
            simp [ih hpre]

/-- A post laid back into a list at the place it was taken from. -/
theorem getElem?_take_cons_drop {α : Type} (l : List α) (a : α) (n : Nat) (h : n ≤ l.length) :
    (l.take n ++ a :: l.drop n)[n]? = some a := by
  have hlen : (l.take n).length = n := by simp [h]
  rw [List.getElem?_append_right (by omega), hlen]
  simp

/-- What the nested loops of `GetPostsByTxHashes` keep true of the pair
`(voteQuestion, voteOption)`: a question comes with an option; the option is a fetched
option chosen by a fetched vote of the post; the question is a fetched question of
some fetched option chosen by a fetched vote of the post. -/
theorem GetPostsByTxHashes.vote_invariant (memoPollVotes : List MemoPollVote)
    (memoPollOptions : List MemoPollOption) (memoPollQuestions : List MemoPost)
    (memoPost : MemoPost) :
    ((GetPostsByTxHashes.vote memoPollVotes memoPollOptions memoPollQuestions memoPost).1 ≠ none →
      (GetPostsByTxHashes.vote memoPollVotes memoPollOptions memoPollQuestions memoPost).2
        ≠ none) ∧
    (∀ o, (GetPostsByTxHashes.vote memoPollVotes memoPollOptions memoPollQuestions memoPost).2
        = some o →
      o ∈ memoPollOptions ∧
        ∃ v ∈ memoPollVotes, v.TxHash = memoPost.TxHash ∧ o.TxHash = v.OptionTxHash) ∧
    (∀ q, (GetPostsByTxHashes.vote memoPollVotes memoPollOptions memoPollQuestions memoPost).1
        = some q →
      q ∈ memoPollQuestions ∧
        ∃ o ∈ memoPollOptions, ∃ v ∈ memoPollVotes,
          v.TxHash = memoPost.TxHash ∧ o.TxHash = v.OptionTxHash ∧
            q.TxHash = o.PollTxHash) := by
  unfold GetPostsByTxHashes.vote
  split_ifs with hVote
  swap
  · simp
  apply List.foldlRecOn (motive := fun st : Option MemoPost × Option MemoPollOption =>
      (st.1 ≠ none → st.2 ≠ none) ∧
      (∀ o, st.2 = some o → o ∈ memoPollOptions ∧
        ∃ v ∈ memoPollVotes, v.TxHash = memoPost.TxHash ∧ o.TxHash = v.OptionTxHash) ∧
      (∀ q, st.1 = some q → q ∈ memoPollQuestions ∧
        ∃ o ∈ memoPollOptions, ∃ v ∈ memoPollVotes,
          v.TxHash = memoPost.TxHash ∧ o.TxHash = v.OptionTxHash ∧ q.TxHash = o.PollTxHash))
  · simp
  intro st hst v hv
  split_ifs with hvm
  swap
  · exact hst
  apply List.foldlRecOn (motive := fun st : Option MemoPost × Option MemoPollOption =>
      (st.1 ≠ none → st.2 ≠ none) ∧
      (∀ o, st.2 = some o → o ∈ memoPollOptions ∧
        ∃ v ∈ memoPollVotes, v.TxHash = memoPost.TxHash ∧ o.TxHash = v.OptionTxHash) ∧
      (∀ q, st.1 = some q → q ∈ memoPollQuestions ∧
        ∃ o ∈ memoPollOptions, ∃ v ∈ memoPollVotes,
          v.TxHash = memoPost.TxHash ∧ o.TxHash = v.OptionTxHash ∧ q.TxHash = o.PollTxHash))
  · exact hst
  intro st hst o ho
  split_ifs with hom
  swap
  · exact hst
  have hinner := List.foldlRecOn (motive := fun st' : Option MemoPost × Option MemoPollOption =>
      st'.2 = some o ∧
      (∀ q, st'.1 = some q → q ∈ memoPollQuestions ∧
        ∃ o ∈ memoPollOptions, ∃ v ∈ memoPollVotes,
          v.TxHash = memoPost.TxHash ∧ o.TxHash = v.OptionTxHash ∧ q.TxHash = o.PollTxHash))
    memoPollQuestions
    (fun st memoPollQuestion =>
      if memoPollQuestion.TxHash = o.PollTxHash then (some memoPollQuestion, st.2) else st)
    (st.1, some o) ⟨rfl, hst.2.2⟩
    (by
      intro st' hst' q hq
      dsimp only
      split_ifs with hqm
      · refine ⟨hst'.1, ?_⟩
        intro q' hq'
        cases hq'
        exact ⟨hq, o, ho, v, hv, hvm, hom, hqm⟩
      · exact hst')
  refine ⟨fun _ => by rw [hinner.1]; simp, ?_, hinner.2⟩
  intro o' ho'
  rw [hinner.1] at ho'
  cases ho'
  exact ⟨ho, v, hv, hvm, hom⟩
/-- A post is returned by `GetPostsByTxHashes` only when its six lookups succeed. -/
theorem GetPostsByTxHashes.lookups_of_mem (d : Db) (txHashes : List Bytes)
    (selfPkHash : Bytes) (post : Post)
    (hpost : post ∈ (GetPostsByTxHashes d txHashes selfPkHash).1) :
    ∃ memoPosts memoPollVotes memoPollOptions memoPollQuestions setNames txHashCounts,
      d.GetPostsByTxHashes txHashes = .ok memoPosts ∧
      d.GetMemoPollVotesByTxHashes (GetPostsByTxHashes.hashes memoPosts).2
        = .ok memoPollVotes ∧
      d.GetMemoPollOptionsByTxHashes (GetPostsByTxHashes.pollOptionTxHashes memoPollVotes)
        = .ok memoPollOptions ∧
      d.GetPostsByTxHashes (GetPostsByTxHashes.pollTxHashes memoPollOptions)
        = .ok memoPollQuestions ∧
      d.GetNamesForPkHashes (GetPostsByTxHashes.hashes memoPosts).1 = .ok setNames ∧
      d.GetPostReplyCounts txHashes = .ok txHashCounts := by
  unfold GetPostsByTxHashes at hpost
  cases h1 : d.GetPostsByTxHashes txHashes with
  | error err => simp [h1] at hpost
  | ok memoPosts =>
    cases h2 : d.GetMemoPollVotesByTxHashes (GetPostsByTxHashes.hashes memoPosts).2 with
    | error err => simp [h1, h2] at hpost
    | ok memoPollVotes =>
      cases h3 : d.GetMemoPollOptionsByTxHashes
          (GetPostsByTxHashes.pollOptionTxHashes memoPollVotes) with
      | error err => simp [h1, h2, h3] at hpost
      | ok memoPollOptions =>
        cases h4 : d.GetPostsByTxHashes (GetPostsByTxHashes.pollTxHashes memoPollOptions) with
        | error err => simp [h1, h2, h3, h4] at hpost
        | ok memoPollQuestions =>
          cases h5 : d.GetNamesForPkHashes (GetPostsByTxHashes.hashes memoPosts).1 with
          | error err => simp [h1, h2, h3, h4, h5] at hpost
          | ok setNames =>
            cases h6 : d.GetPostReplyCounts txHashes with
            | error err => simp [h1, h2, h3, h4, h5, h6] at hpost
            | ok txHashCounts =>
              exact ⟨memoPosts, memoPollVotes, memoPollOptions, memoPollQuestions, setNames,
                txHashCounts, rfl, h2, h3, h4, h5, rfl⟩

/-- Filtering a list does not change the first element found among those kept. -/
theorem find?_filter_of_imp {α : Type} (p q : α → Bool) (l : List α)
    (h : ∀ a, p a = true → q a = true) : (l.filter q).find? p = l.find? p := by
  induction l with
  | nil => rfl
  | cons a t ih =>
    by_cases hq : q a = true
    · rw [List.filter_cons_of_pos hq, List.find?_cons, List.find?_cons, ih]
    · rw [List.filter_cons_of_neg hq, ih, List.find?_cons]
      have hp : p a = false := by
        cases hpa : p a with
        | false => rfl
        | true => exact absurd (h a hpa) hq
      rw [hp]

/-- Reading a map after an assignment. -/
theorem NameMap.get_set (names : NameMap) (pkHash : Bytes) (name : String) (key : Bytes) :
    (names.set pkHash name).get key = if key = pkHash then some name else names.get key := by
  unfold NameMap.set NameMap.get
  by_cases h : key = pkHash
  · subst h
    simp
  · have hne : ¬ pkHash = key := fun e => h e.symm
    rw [List.find?_cons, if_neg h]
    have hhead : decide ((pkHash, name).1 = key) = false := by simpa using hne
    rw [hhead]
    congr 1
    apply find?_filter_of_imp
    intro entry hentry
    have hk : entry.1 = key := by simpa using hentry
    have : entry.1 ≠ pkHash := fun e => h (hk.symm.trans e)
    simpa using this

/-- The second loop of `GetPostsFeed` returns as soon as a name lookup fails with an
error that is not a record-not-found error. -/
theorem GetPostsFeed.names_error (d : Db) (pkHashes : List Bytes) (names : NameMap)
    (h : ∃ pkHash ∈ pkHashes, ∃ err,
      d.GetNameForPkHash pkHash = .error err ∧ d.IsRecordNotFoundError err = false) :
    ∃ err, GetPostsFeed.names d pkHashes names = .error err := by
  induction pkHashes generalizing names with
  | nil => simp at h
  | cons pkHash rest ih =>
    have hrest : (∃ k ∈ rest, ∃ err,
        d.GetNameForPkHash k = .error err ∧ d.IsRecordNotFoundError err = false) ∨
        ∃ err, d.GetNameForPkHash pkHash = .error err ∧ d.IsRecordNotFoundError err = false := by
      obtain ⟨k, hk, err, herr⟩ := h
      rcases List.mem_cons.mp hk with rfl | hk
      · exact Or.inr ⟨err, herr⟩
      · exact Or.inl ⟨k, hk, err, herr⟩
    rw [GetPostsFeed.names]
    cases hName : d.GetNameForPkHash pkHash with
    | error err =>
      by_cases hnf : d.IsRecordNotFoundError err = true
      · simp only [hnf, Bool.not_true]
        rcases hrest with hrest | ⟨err', h1, h2⟩
        · exact ih names hrest
        · rw [hName] at h1
          cases h1
          rw [hnf] at h2
          cases h2
      · simp [hnf]
    | ok setName =>
      rcases hrest with hrest | ⟨err', h1, h2⟩
      · cases setName with
        | none => exact ih names hrest
        | some setName => exact ih _ hrest
      · rw [hName] at h1
        cases h1

/-- The second loop of `GetPostsFeed` when every failing name lookup fails with a
record-not-found error: the map holds, for every hash visited whose record was found,
the name of the record, and is as before for the other hashes. -/
theorem GetPostsFeed.names_ok (d : Db) (pkHashes : List Bytes) (names : NameMap)
    (h : ∀ pkHash ∈ pkHashes, ∀ err,
      d.GetNameForPkHash pkHash = .error err → d.IsRecordNotFoundError err = true) :
    ∃ names', GetPostsFeed.names d pkHashes names = .ok names' ∧
      ∀ key, names'.get key
        = if key ∈ pkHashes then (GetPostsFeed.nameOf d key).or (names.get key)
          else names.get key := by
  induction pkHashes generalizing names with
  | nil => exact ⟨names, rfl, fun key => by simp⟩
  | cons pkHash rest ih =>
    have hrest : ∀ k ∈ rest, ∀ err,
        d.GetNameForPkHash k = .error err → d.IsRecordNotFoundError err = true :=
      fun k hk => h k (List.mem_cons_of_mem _ hk)
    rw [GetPostsFeed.names]
    cases hName : d.GetNameForPkHash pkHash with
    | error err =>
      have hnf := h pkHash (List.mem_cons_self _ _) err hName
      simp only [hnf, Bool.not_true]
      obtain ⟨names', h1, h2⟩ := ih names hrest
      refine ⟨names', h1, fun key => ?_⟩
      rw [h2 key]
      by_cases hk : key = pkHash
      · subst hk
        simp [GetPostsFeed.nameOf, hName]
      · simp [hk]
    | ok setName =>
      cases setName with
      | none =>
        obtain ⟨names', h1, h2⟩ := ih names hrest
        refine ⟨names', h1, fun key => ?_⟩
        rw [h2 key]
        by_cases hk : key = pkHash
        · subst hk
          simp [GetPostsFeed.nameOf, hName]
        · simp [hk]
      | some setName =>
        obtain ⟨names', h1, h2⟩ := ih (names.set pkHash setName.Name) hrest
        refine ⟨names', h1, fun key => ?_⟩
        rw [h2 key, NameMap.get_set]
        by_cases hk : key = pkHash
        · subst hk
          simp [GetPostsFeed.nameOf, hName]
        · simp [hk]

/-- The post built by `GetPostsFeed` for a record: its `Memo` and its `Name`. -/
theorem GetPostsFeed.post_fields (selfPkHash : Bytes) (names : NameMap) (dbPost : MemoPost)
    (cnt : Nat) :
    (GetPostsFeed.post selfPkHash names dbPost cnt).Memo = dbPost ∧
    (GetPostsFeed.post selfPkHash names dbPost cnt).Name = (names.get dbPost.PkHash).getD "" := by
  unfold GetPostsFeed.post
  cases names.get dbPost.PkHash <;> exact ⟨rfl, rfl⟩

/-- The last loop of `GetPostsFeed` when every count lookup succeeds. -/
theorem GetPostsFeed.posts_ok (d : Db) (selfPkHash : Bytes) (names : NameMap)
    (dbPosts : List MemoPost) (posts : List Post)
    (h : ∀ dbPost ∈ dbPosts, ∃ cnt, d.GetPostReplyCount dbPost.TxHash = .ok cnt) :
    ∃ built, GetPostsFeed.posts d selfPkHash names dbPosts posts = (posts ++ built, none) ∧
      built.map Post.Memo = dbPosts ∧
      ∀ post ∈ built, post.Name = (names.get post.Memo.PkHash).getD "" := by
  induction dbPosts generalizing posts with
  | nil => exact ⟨[], by simp [GetPostsFeed.posts], rfl, by simp⟩
  | cons dbPost rest ih =>
    obtain ⟨cnt, hcnt⟩ := h dbPost (List.mem_cons_self _ _)
    obtain ⟨built, hbuilt, hmemo, hname⟩ :=
      ih (posts ++ [GetPostsFeed.post selfPkHash names dbPost cnt])
        (fun m hm => h m (List.mem_cons_of_mem _ hm))
    obtain ⟨f1, f2⟩ := GetPostsFeed.post_fields selfPkHash names dbPost cnt
    refine ⟨GetPostsFeed.post selfPkHash names dbPost cnt :: built, ?_, ?_, ?_⟩
    · rw [GetPostsFeed.posts]
      simp only [hcnt]
      rw [hbuilt, List.append_assoc, List.singleton_append]
    · rw [List.map_cons, hmemo, f1]
    · intro post hpost
      rcases List.mem_cons.mp hpost with rfl | hpost
      · rw [f2, f1]
      · exact hname post hpost

/-- The body of the loops of `SetShowMediaForPosts` writes `ShowMedia` of the post and
of its parent, to true, and nothing else. -/
theorem SetShowMediaForPosts.show_frame (post : Post) :
    (SetShowMediaForPosts.show post).ShowMedia = true ∧
    (∀ parent, post.Parent = some parent →
      (SetShowMediaForPosts.show post).Parent = some { parent with ShowMedia := true }) ∧
    (post.Parent = none → (SetShowMediaForPosts.show post).Parent = none) ∧
    SetShowMediaForPosts.show post
      = { post with
          ShowMedia := true
          Parent := post.Parent.map fun parent => { parent with ShowMedia := true } } := by
  unfold SetShowMediaForPosts.show
  cases post with
  | mk Name Memo Parent Likes HasLiked SelfPkHash ReplyCount Replies Reputation ShowMedia Poll
      VoteQuestion VoteOption ProfilePic =>
    cases Parent with
    | none =>
      refine ⟨rfl, ?_, ?_, rfl⟩
      · intro parent h
        cases h
      · intro _
        rfl
    | some parent =>
      refine ⟨rfl, ?_, ?_, rfl⟩
      · intro p h
        cases h
        rfl
      · intro h
        cases h

/-- A post is itself with some value written to its `ShowMedia` and some value to the
`ShowMedia` of its parent: its own values. -/
theorem Post.with_own_showMedia (post : Post) :
    ∃ showMedia parentShowMedia,
      post = { post with
        ShowMedia := showMedia
        Parent := post.Parent.map fun parent =>
          { parent with ShowMedia := parentShowMedia } } := by
  cases post with
  | mk Name Memo Parent Likes HasLiked SelfPkHash ReplyCount Replies Reputation ShowMedia Poll
      VoteQuestion VoteOption ProfilePic =>
    cases Parent with
    | none => exact ⟨ShowMedia, true, rfl⟩
    | some parent =>
      refine ⟨ShowMedia, parent.ShowMedia, ?_⟩
      cases parent
      rfl

/-! ## The claims -/

/-- C1: when every lookup of `GetPostsByTxHashes` succeeds, it returns no error and one
post per fetched memo post, in the same order, each with `Memo` that record and
`SelfPkHash` the argument; the `Name` is that of a fetched set-name record with the
post's `PkHash`, or empty when there is none, and the `ReplyCount` is the `Count` of a
fetched reply-count record with the post's `TxHash`, or 0 when there is none. -/
theorem GetPostsByTxHashes_join (d : Db) (txHashes : List Bytes) (selfPkHash : Bytes)
    (memoPosts : List MemoPost) (memoPollVotes : List MemoPollVote)
    (memoPollOptions : List MemoPollOption) (memoPollQuestions : List MemoPost)
    (setNames : List MemoSetName) (txHashCounts : List TxHashCount)
    (hPosts : d.GetPostsByTxHashes txHashes = .ok memoPosts)
    (hVotes : d.GetMemoPollVotesByTxHashes (GetPostsByTxHashes.hashes memoPosts).2
      = .ok memoPollVotes)
    (hOptions : d.GetMemoPollOptionsByTxHashes
      (GetPostsByTxHashes.pollOptionTxHashes memoPollVotes) = .ok memoPollOptions)
    (hQuestions : d.GetPostsByTxHashes (GetPostsByTxHashes.pollTxHashes memoPollOptions)
      = .ok memoPollQuestions)
    (hNames : d.GetNamesForPkHashes (GetPostsByTxHashes.hashes memoPosts).1 = .ok setNames)
    (hCounts : d.GetPostReplyCounts txHashes = .ok txHashCounts) :
    (GetPostsByTxHashes d txHashes selfPkHash).2 = none ∧
    (GetPostsByTxHashes d txHashes selfPkHash).1.map Post.Memo = memoPosts ∧
    ∀ post ∈ (GetPostsByTxHashes d txHashes selfPkHash).1,
      post.SelfPkHash = selfPkHash ∧
      ((∃ setName ∈ setNames, setName.PkHash = post.Memo.PkHash ∧ post.Name = setName.Name) ∨
        ((∀ setName ∈ setNames, setName.PkHash ≠ post.Memo.PkHash) ∧ post.Name = "")) ∧
      ((∃ txHashCount ∈ txHashCounts,
          txHashCount.TxHash = post.Memo.TxHash ∧ post.ReplyCount = txHashCount.Count) ∨
        ((∀ txHashCount ∈ txHashCounts, txHashCount.TxHash ≠ post.Memo.TxHash) ∧
          post.ReplyCount = 0)) := by
  rw [GetPostsByTxHashes.eq_build d txHashes selfPkHash memoPosts memoPollVotes
    memoPollOptions memoPollQuestions setNames txHashCounts hPosts hVotes hOptions
    hQuestions hNames hCounts, GetPostsByTxHashes.build_eq]
  refine ⟨rfl, ?_, ?_⟩
  · simp [Post.zero, Function.comp_def]
  · intro post hpost
    obtain ⟨memoPost, -, rfl⟩ := List.mem_map.mp hpost
    refine ⟨rfl, ?_, ?_⟩
    · exact foldl_overwrite_cases (fun setName : MemoSetName => setName.PkHash = memoPost.PkHash)
        (fun setName => setName.Name) setNames ""
    · exact foldl_overwrite_cases
        (fun txHashCount : TxHashCount => txHashCount.TxHash = memoPost.TxHash)
        (fun txHashCount => txHashCount.Count) txHashCounts 0

/-- C1, on two posts of one author with a name record, the first with a reply count. -/
theorem GetPostsByTxHashes_join_witness :
    (GetPostsByTxHashes Db.twoPosts [[1], [2]] [9]).2 = none ∧
    (GetPostsByTxHashes Db.twoPosts [[1], [2]] [9]).1.map Post.Memo
      = [MemoPost.sample [1] [7], MemoPost.sample [2] [7]] :=
  have h := GetPostsByTxHashes_join Db.twoPosts [[1], [2]] [9]
    [MemoPost.sample [1] [7], MemoPost.sample [2] [7]] [] [] [] [⟨[7], "alice"⟩] [⟨[1], 3⟩]
    rfl rfl rfl rfl rfl rfl
  ⟨h.1, h.2.1⟩

/-- C2: when the lookup of `AttachNamesToPosts` fails, it returns an error and the posts
are as they were; when it succeeds with `setNames`, it returns no error and every
post is as before except for `Name`, which is the `Name` of the last record of
`setNames` with the `PkHash` of the post, and the old `Name` when there is no such
record. -/
theorem AttachNamesToPosts_frame (d : Db) (posts : List Post) :
    (∀ err, d.GetNamesForPkHashes (AttachNamesToPosts.namePkHashes posts) = .error err →
      (AttachNamesToPosts d posts).2 ≠ none ∧ (AttachNamesToPosts d posts).1 = posts) ∧
    (∀ setNames, d.GetNamesForPkHashes (AttachNamesToPosts.namePkHashes posts) = .ok setNames →
      (AttachNamesToPosts d posts).2 = none ∧
      (AttachNamesToPosts d posts).1 = posts.map fun post =>
        { post with
          Name :=
            match (setNames.filter fun setName =>
              decide (setName.PkHash = post.Memo.PkHash)).getLast? with
            | some setName => setName.Name
            | none => post.Name }) := by
  refine ⟨fun err h => ?_, fun setNames h => ?_⟩
  · simp [AttachNamesToPosts, h]
  · refine ⟨by simp [AttachNamesToPosts, h], ?_⟩
    simp only [AttachNamesToPosts, h, AttachNamesToPosts.assign_eq]
    apply List.map_congr_left
    intro post _
    rw [foldl_overwrite (fun setName : MemoSetName => post.Memo.PkHash = setName.PkHash)
      (fun setName => setName.Name) setNames post.Name, find?_reverse_eq_getLast?_filter]
    have hfilter : (setNames.filter fun setName => decide (post.Memo.PkHash = setName.PkHash))
        = setNames.filter fun setName => decide (setName.PkHash = post.Memo.PkHash) := by
      apply List.filter_congr
      intro setName _
      simp [eq_comm]
    rw [hfilter]
    cases (setNames.filter fun setName =>
      decide (setName.PkHash = post.Memo.PkHash)).getLast? <;> rfl

/-- C2, on a post of author `[7]` with two name records for `[7]` and on a failing
lookup: the later record wins, and a failure leaves the post alone. -/
theorem AttachNamesToPosts_frame_witness :
    (AttachNamesToPosts
        { Db.down with GetNamesForPkHashes := fun _ => .ok [⟨[7], "al"⟩, ⟨[7], "alice"⟩] }
        [Post.zero (MemoPost.sample [1] [7]) []]).1.map Post.Name = ["alice"] ∧
    (AttachNamesToPosts Db.down [Post.zero (MemoPost.sample [1] [7]) []]).2 ≠ none :=
  ⟨by
    rw [((AttachNamesToPosts_frame
      { Db.down with GetNamesForPkHashes := fun _ => .ok [⟨[7], "al"⟩, ⟨[7], "alice"⟩] }
      [Post.zero (MemoPost.sample [1] [7]) []]).2 [⟨[7], "al"⟩, ⟨[7], "alice"⟩] rfl).2]
    rfl,
   ((AttachNamesToPosts_frame Db.down [Post.zero (MemoPost.sample [1] [7]) []]).1
      ⟨["down"]⟩ rfl).1⟩

/-- C3: on posts that all have `Memo.IsPoll` set and no `Poll`, with every fetched
question within the machine ranges (`NumOptions` a `uint`, the number of options an
`int`), a successful `AttachPollsToPosts` leaves every post with a `Poll` exactly when
its fetched question has at least 2 options and `NumOptions` equal to their number;
`IsPoll` is then true exactly for the posts with a `Poll`, and a `Poll` carries the
`SelfPkHash` of its post and the fetched question. -/
theorem AttachPollsToPosts_poll_iff (d : Db) (codePollTypeSingle : Nat) (posts : List Post)
    (hPolls : ∀ post ∈ posts, post.Memo.IsPoll = true ∧ post.Poll = none)
    (hRange : ∀ post ∈ posts, ∀ question,
      d.GetMemoPollQuestion post.Memo.TxHash = .ok question →
        question.NumOptions < 2 ^ 64 ∧ question.Options.length < 2 ^ 63)
    (hOk : (AttachPollsToPosts d codePollTypeSingle posts).2 = none) :
    List.Forall₂
      (fun before after =>
        after.SelfPkHash = before.SelfPkHash ∧ after.Memo = before.Memo ∧
        ∃ question, d.GetMemoPollQuestion before.Memo.TxHash = .ok question ∧
          (after.Poll.isSome = true ↔
            2 ≤ question.Options.length ∧ question.NumOptions = question.Options.length) ∧
          (after.IsPoll = true ↔ after.Poll.isSome = true) ∧
          ∀ poll, after.Poll = some poll →
            poll.SelfPkHash = after.SelfPkHash ∧ poll.Question = question)
      posts (AttachPollsToPosts d codePollTypeSingle posts).1 := by
  induction posts with
  | nil => exact List.Forall₂.nil
  | cons post rest ih =>
    obtain ⟨hIsPoll, hNil⟩ := hPolls post (List.mem_cons_self _ _)
    have hbody := AttachPollsToPosts.body_spec d codePollTypeSingle post hIsPoll hNil
    unfold AttachPollsToPosts at hOk ⊢
    rcases hb : AttachPollsToPosts.body d codePollTypeSingle post with ⟨p, e⟩
    rw [hb] at hbody hOk
    cases e with
    | some err => simp at hOk
    | none =>
      simp only at hOk hbody ⊢
      obtain ⟨s1, s2, question, s3, s4, s5⟩ := hbody trivial
      obtain ⟨r1, r2⟩ := hRange post (List.mem_cons_self _ _) question s3
      have hcond : (2 ≤ question.Options.length ∧
          intOfUint question.NumOptions = (question.Options.length : Int)) ↔
          (2 ≤ question.Options.length ∧ question.NumOptions = question.Options.length) := by
        rw [intOfUint_eq_iff _ _ r1 r2]
      refine List.Forall₂.cons ⟨s1, s2, question, s3, s4.trans hcond, ?_, ?_⟩
        (ih (fun q hq => hPolls q (List.mem_cons_of_mem _ hq))
          (fun q hq => hRange q (List.mem_cons_of_mem _ hq)) hOk)
      · rw [Post.IsPoll_iff]
        constructor
        · rintro ⟨poll, hpoll, -⟩
          simp [hpoll]
        · intro hsome
          obtain ⟨poll, hpoll⟩ := Option.isSome_iff_exists.mp hsome
          obtain ⟨c1, c2⟩ := s4.mp hsome
          obtain ⟨-, hquestion⟩ := s5 poll hpoll
          exact ⟨poll, hpoll, by rw [s2]; exact hIsPoll, by rw [hquestion]; exact c1,
            by rw [hquestion]; exact c2⟩
      · intro poll hpoll
        exact ⟨(s5 poll hpoll).1.trans s1.symm, (s5 poll hpoll).2⟩
/-- C3, on one poll post whose question has two options and `NumOptions` 2. -/
theorem AttachPollsToPosts_poll_iff_witness :
    (AttachPollsToPosts Db.onePoll 1 [Post.zero MemoPost.samplePoll [9]]).2 = none ∧
    [Post.zero MemoPost.samplePoll [9]].length
      = (AttachPollsToPosts Db.onePoll 1 [Post.zero MemoPost.samplePoll [9]]).1.length :=
  ⟨rfl,
   (AttachPollsToPosts_poll_iff Db.onePoll 1 [Post.zero MemoPost.samplePoll [9]]
      (by
        intro post hpost
        rw [List.mem_singleton] at hpost
        subst hpost
        exact ⟨rfl, rfl⟩)
      (by
        intro post _ question hquestion
        have h : question = ⟨[1], 2, 1, [⟨[2], [1]⟩, ⟨[3], [1]⟩]⟩ :=
          (Except.ok.inj hquestion).symm
        subst h
        exact ⟨by decide, by decide⟩)
      rfl).length_eq⟩

/-- C4: when every count lookup succeeds, `CreatePostsFromDbPosts` returns no error and
one post per record, in order, which is the zero post but for `Memo` the record,
`SelfPkHash` the argument and `ReplyCount` the count looked up for the `TxHash` of
the record; when a count lookup fails for some record, it returns an error and the
nil list. -/
theorem CreatePostsFromDbPosts_all_or_nothing (d : Db) (selfPkHash : Bytes)
    (dbPosts : List MemoPost) :
    ((∀ dbPost ∈ dbPosts, ∃ cnt, d.GetPostReplyCount dbPost.TxHash = .ok cnt) →
      (CreatePostsFromDbPosts d selfPkHash dbPosts).2 = none ∧
      (CreatePostsFromDbPosts d selfPkHash dbPosts).1.length = dbPosts.length ∧
      List.Forall₂
        (fun dbPost post => ∃ cnt, d.GetPostReplyCount dbPost.TxHash = .ok cnt ∧
          post = { Post.zero dbPost selfPkHash with ReplyCount := cnt })
        dbPosts (CreatePostsFromDbPosts d selfPkHash dbPosts).1) ∧
    ((∃ dbPost ∈ dbPosts, ∃ err, d.GetPostReplyCount dbPost.TxHash = .error err) →
      (CreatePostsFromDbPosts d selfPkHash dbPosts).1 = [] ∧
      (CreatePostsFromDbPosts d selfPkHash dbPosts).2 ≠ none) := by
  refine ⟨fun h => ?_, fun h => ?_⟩
  · obtain ⟨built, hbuilt, hrel⟩ := CreatePostsFromDbPosts.loop_ok d selfPkHash dbPosts [] h
    rw [CreatePostsFromDbPosts, hbuilt]
    exact ⟨rfl, hrel.length_eq.symm, hrel⟩
  · exact CreatePostsFromDbPosts.loop_error d selfPkHash dbPosts [] h

/-- C4, on two records: with counts 3 for both, and with a count for the first only. -/
theorem CreatePostsFromDbPosts_all_or_nothing_witness :
    (CreatePostsFromDbPosts { Db.down with GetPostReplyCount := fun _ => .ok 3 } [9]
      [MemoPost.sample [1] [7], MemoPost.sample [2] [8]]).1.length = 2 ∧
    (CreatePostsFromDbPosts
      { Db.down with
        GetPostReplyCount := fun txHash => if txHash = [1] then .ok 3 else .error ⟨["gone"]⟩ }
      [9] [MemoPost.sample [1] [7], MemoPost.sample [2] [8]]).1 = [] :=
  ⟨((CreatePostsFromDbPosts_all_or_nothing { Db.down with GetPostReplyCount := fun _ => .ok 3 }
      [9] [MemoPost.sample [1] [7], MemoPost.sample [2] [8]]).1
      (fun _ _ => ⟨3, rfl⟩)).2.1,
   ((CreatePostsFromDbPosts_all_or_nothing
      { Db.down with
        GetPostReplyCount := fun txHash => if txHash = [1] then .ok 3 else .error ⟨["gone"]⟩ }
      [9] [MemoPost.sample [1] [7], MemoPost.sample [2] [8]]).2
      ⟨MemoPost.sample [2] [8], by simp, ⟨["gone"]⟩, rfl⟩).1⟩

/-- C5: for a post at any place of the list given to `AttachParentToPosts`.
With an empty `ParentTxHash` the post is left as it is and no lookup is made for it:
the error, the lookups and the other posts are those of the run without it.
With a failing parent fetch the post is left as it is, and the error and the other
posts are those of the run without it, so the failure is not returned and the later
posts are visited.
When the loop reaches the post and its parent fetch, name lookup and picture lookup
succeed, the post gets a `Parent` whose `Memo` is the fetched record, whose
`SelfPkHash` is that of the post, whose `Name` is the name looked up, empty without
a name record, and whose `ReplyCount` is 0; nothing else of the post changes. -/
theorem AttachParentToPosts_conditional (d : Db) (pre : List Post) (post : Post)
    (rest : List Post) :
    (post.Memo.ParentTxHash = [] →
      (AttachParentToPosts d (pre ++ post :: rest)).err
        = (AttachParentToPosts d (pre ++ rest)).err ∧
      (AttachParentToPosts d (pre ++ post :: rest)).lookups
        = (AttachParentToPosts d (pre ++ rest)).lookups ∧
      (AttachParentToPosts d (pre ++ post :: rest)).posts
        = (AttachParentToPosts d (pre ++ rest)).posts.take pre.length ++
            post :: (AttachParentToPosts d (pre ++ rest)).posts.drop pre.length ∧
      (AttachParentToPosts d (pre ++ post :: rest)).posts[pre.length]? = some post) ∧
    (∀ err, d.GetMemoPost post.Memo.ParentTxHash = .error err →
      (AttachParentToPosts d (pre ++ post :: rest)).err
        = (AttachParentToPosts d (pre ++ rest)).err ∧
      (AttachParentToPosts d (pre ++ post :: rest)).posts
        = (AttachParentToPosts d (pre ++ rest)).posts.take pre.length ++
            post :: (AttachParentToPosts d (pre ++ rest)).posts.drop pre.length ∧
      (AttachParentToPosts d (pre ++ post :: rest)).posts[pre.length]? = some post) ∧
    (∀ parentPost setName setPic,
      (AttachParentToPosts d pre).err = none →
      post.Memo.ParentTxHash ≠ [] →
      d.GetMemoPost post.Memo.ParentTxHash = .ok parentPost →
      d.GetNameForPkHash parentPost.PkHash = .ok setName →
      d.GetPicForPkHash parentPost.PkHash = .ok setPic →
      ∃ parent,
        (AttachParentToPosts d (pre ++ post :: rest)).posts[pre.length]?
          = some { post with Parent := some parent } ∧
        parent.Memo = parentPost ∧
        parent.SelfPkHash = post.SelfPkHash ∧
        parent.Name = (match setName with
          | some setName => setName.Name
          | none => "") ∧
        parent.ReplyCount = 0 ∧
        parent.ProfilePic = setPic) := by
  have hlen := AttachParentToPosts.length_posts d pre
  have hskip :
      (AttachParentToPosts d (post :: rest)).posts = post :: (AttachParentToPosts d rest).posts →
      (AttachParentToPosts d (post :: rest)).err = (AttachParentToPosts d rest).err →
      (AttachParentToPosts d (pre ++ post :: rest)).err
        = (AttachParentToPosts d (pre ++ rest)).err ∧
      (AttachParentToPosts d (pre ++ post :: rest)).posts
        = (AttachParentToPosts d (pre ++ rest)).posts.take pre.length ++
            post :: (AttachParentToPosts d (pre ++ rest)).posts.drop pre.length := by
    intro hposts herr
    cases hpre : (AttachParentToPosts d pre).err with
    | none =>
      rw [AttachParentToPosts.append_ok d pre _ hpre, AttachParentToPosts.append_ok d pre _ hpre]
      simp [hposts, herr, List.take_append_eq_append_take, List.drop_append_eq_append_drop, hlen]
    | some e =>
      rw [AttachParentToPosts.append_error d pre _ e hpre,
        AttachParentToPosts.append_error d pre _ e hpre]
      simp [List.take_append_eq_append_take, List.drop_append_eq_append_drop, hlen]
  have hlen0 : pre.length ≤ (AttachParentToPosts d (pre ++ rest)).posts.length := by
    rw [AttachParentToPosts.length_posts]
    simp
  refine ⟨fun h => ?_, fun err hFetch => ?_, ?_⟩
  · have e := AttachParentToPosts.cons_skip d post rest h
    obtain ⟨h1, h2⟩ := hskip (by rw [e]) (by rw [e])
    refine ⟨h1, ?_, h2, ?_⟩
    · cases hpre : (AttachParentToPosts d pre).err with
      | none =>
        rw [AttachParentToPosts.append_ok d pre _ hpre,
          AttachParentToPosts.append_ok d pre _ hpre, e]
      | some e' =>
        rw [AttachParentToPosts.append_error d pre _ e' hpre,
          AttachParentToPosts.append_error d pre _ e' hpre]
    · rw [h2]
      exact getElem?_take_cons_drop _ _ _ hlen0
  · have hpost : (AttachParentToPosts d (post :: rest)).posts
          = post :: (AttachParentToPosts d rest).posts ∧
        (AttachParentToPosts d (post :: rest)).err = (AttachParentToPosts d rest).err := by
      by_cases h : post.Memo.ParentTxHash = []
      · rw [AttachParentToPosts.cons_skip d post rest h]
        exact ⟨rfl, rfl⟩
      · rw [AttachParentToPosts.cons_fetch_error d post rest err h hFetch]
        exact ⟨rfl, rfl⟩
    obtain ⟨h1, h2⟩ := hskip hpost.1 hpost.2
    refine ⟨h1, h2, ?_⟩
    rw [h2]
    exact getElem?_take_cons_drop _ _ _ hlen0
  · intro parentPost setName setPic hpre h hFetch hName hPic
    refine ⟨AttachParentToPosts.parent post parentPost setName setPic, ?_, ?_⟩
    · rw [AttachParentToPosts.append_ok d pre _ hpre,
        AttachParentToPosts.cons_attach d post rest parentPost setName setPic h hFetch hName hPic]
      simp only
      rw [List.getElem?_append_right (by omega), hlen]
      simp
    · unfold AttachParentToPosts.parent
      cases setPic <;> exact ⟨rfl, rfl, rfl, rfl, rfl⟩
/-- C5, on a post without a parent hash before another post, on a post whose parent
is not found, and on a post whose parent `[5]` is found with a name and no picture. -/
theorem AttachParentToPosts_conditional_witness :
    (AttachParentToPosts Db.oneParent
        ([] ++ Post.zero (MemoPost.sample [1] [7]) [9] :: [Post.sampleChild [5]])).lookups
      = (AttachParentToPosts Db.oneParent ([] ++ [Post.sampleChild [5]])).lookups ∧
    (AttachParentToPosts Db.oneParent ([] ++ Post.sampleChild [6] :: [])).err
      = (AttachParentToPosts Db.oneParent ([] ++ [])).err ∧
    ∃ parent,
      (AttachParentToPosts Db.oneParent
          ([Post.sampleChild [6]] ++ Post.sampleChild [5] :: [])).posts[
            [Post.sampleChild [6]].length]?
        = some { Post.sampleChild [5] with Parent := some parent } ∧
      parent.Memo = MemoPost.sample [5] [8] ∧
      parent.SelfPkHash = (Post.sampleChild [5]).SelfPkHash ∧
      parent.Name = "bob" ∧
      parent.ReplyCount = 0 ∧
      parent.ProfilePic = none :=
  ⟨((AttachParentToPosts_conditional Db.oneParent [] (Post.zero (MemoPost.sample [1] [7]) [9])
      [Post.sampleChild [5]]).1 rfl).2.1,
   ((AttachParentToPosts_conditional Db.oneParent [] (Post.sampleChild [6]) []).2.1
      ⟨["record not found"]⟩ rfl).1,
   (AttachParentToPosts_conditional Db.oneParent [Post.sampleChild [6]] (Post.sampleChild [5])
      []).2.2 (MemoPost.sample [5] [8]) (some ⟨[8], "bob"⟩) none rfl (by decide) rfl rfl rfl⟩

/-- C6: the handler of `notificationsRoute`. When the session-user lookup, the lookup of
the public-key hash of that user and the fetch of the feed for that hash and the
offset of the request (converted to `uint`) all succeed, it stores the fetched feed
under the helper key "Notifications", then sets page and offset, then renders the
notifications template. When one of the three fails it calls `r.Error` with status
500 and does nothing more. So it renders a template exactly when the three succeed.
The converted offset is the offset of the request when that is not negative. -/
theorem notificationsRoute_render {Feed : Type} (w : Web Feed) (cookieId : String)
    (offset : Int) :
    (∀ user pkHash notifications,
      w.GetSessionUser cookieId = .ok user →
      w.GetUserPkHash user.Id = .ok pkHash →
      w.GetNotificationsFeed pkHash (uintOfInt offset) = .ok notifications →
      notificationsRoute.Handler w cookieId offset
        = [.GetSessionUser cookieId, .GetUserPkHash user.Id,
            .GetNotificationsFeed pkHash (uintOfInt offset),
            .SetHelper "Notifications" notifications,
            .SetPageAndOffset offset,
            .RenderTemplate w.TmplProfileNotifications]) ∧
    (∀ err, w.GetSessionUser cookieId = .error err →
      notificationsRoute.Handler w cookieId offset
        = [.GetSessionUser cookieId,
            .Error (jerr.Get "error getting session user" err) 500]) ∧
    (∀ user err,
      w.GetSessionUser cookieId = .ok user →
      w.GetUserPkHash user.Id = .error err →
      notificationsRoute.Handler w cookieId offset
        = [.GetSessionUser cookieId, .GetUserPkHash user.Id,
            .Error (jerr.Get "error getting address" err) 500]) ∧
    (∀ user pkHash err,
      w.GetSessionUser cookieId = .ok user →
      w.GetUserPkHash user.Id = .ok pkHash →
      w.GetNotificationsFeed pkHash (uintOfInt offset) = .error err →
      notificationsRoute.Handler w cookieId offset
        = [.GetSessionUser cookieId, .GetUserPkHash user.Id,
            .GetNotificationsFeed pkHash (uintOfInt offset),
            .Error (jerr.Get "error getting recent notifications for user" err) 500]) ∧
    ((∃ tmpl, Action.RenderTemplate tmpl ∈ notificationsRoute.Handler w cookieId offset) ↔
      ∃ user pkHash notifications,
        w.GetSessionUser cookieId = .ok user ∧
        w.GetUserPkHash user.Id = .ok pkHash ∧
        w.GetNotificationsFeed pkHash (uintOfInt offset) = .ok notifications) ∧
    (0 ≤ offset → offset < 2 ^ 64 → (uintOfInt offset : Int) = offset) := by
  refine ⟨?_, ?_, ?_, ?_, ?_, ?_⟩
  · intro user pkHash notifications h1 h2 h3
    simp only [notificationsRoute.Handler, h1, h2, h3]
  · intro err h1
    simp only [notificationsRoute.Handler, h1, StatusInternalServerError]
  · intro user err h1 h2
    simp only [notificationsRoute.Handler, h1, h2, StatusInternalServerError]
  · intro user pkHash err h1 h2 h3
    simp only [notificationsRoute.Handler, h1, h2, h3, StatusInternalServerError]
  · unfold notificationsRoute.Handler
    cases h1 : w.GetSessionUser cookieId with
    | error err => simp
    | ok user =>
      cases h2 : w.GetUserPkHash user.Id with
      | error err => simp [h2]
      | ok pkHash =>
        cases h3 : w.GetNotificationsFeed pkHash (uintOfInt offset) with
        | error err => simp [h2, h3]
        | ok notifications => simp [h2, h3]
  · intro h0 h1
    unfold uintOfInt
    rw [Int.emod_eq_of_lt h0 h1]
    exact Int.toNat_of_nonneg h0

/-- C6, on a request of a known session with offset 25. -/
theorem notificationsRoute_render_witness :
    notificationsRoute.Handler Web.sample "cookie" 25
      = [.GetSessionUser "cookie", .GetUserPkHash 4, .GetNotificationsFeed [7] 25,
          .SetHelper "Notifications" [25, 26], .SetPageAndOffset 25,
          .RenderTemplate "notifications"] :=
  (notificationsRoute_render Web.sample "cookie" 25).1 ⟨4⟩ [7] [25, 26] rfl rfl rfl

/-- C7, counterexample: with two fetched option records of the hash `[3]`, of the polls
`[10]` and `[11]`, and the question `[10]` alone fetched, the vote post gets the second
option, of the poll `[11]`, and keeps the question `[10]` found for the first. -/
theorem GetPostsByTxHashes_vote_question_mismatch :
    (GetPostsByTxHashes Db.twoOptions [[1]] []).2 = none ∧
    (GetPostsByTxHashes Db.twoOptions [[1]] []).1.map
        (fun post => (post.VoteQuestion.map fun q => q.TxHash,
          post.VoteOption.map fun o => o.PollTxHash))
      = [(some [10], some [11])] := by
  decide

/-- C7, amended: for every outcome of the lookups, a post returned by
`GetPostsByTxHashes` comes from successful lookups and satisfies: without `Memo.IsVote`
it has no `VoteOption` and no `VoteQuestion`; a `VoteQuestion` comes with a
`VoteOption`; the `VoteOption` is a fetched option whose `TxHash` is the `OptionTxHash`
of a fetched vote with the `TxHash` of the post; the `VoteQuestion` is a fetched
question whose `TxHash` is the `PollTxHash` of such an option; and when no two fetched
votes share a `TxHash` and no two fetched options share a `TxHash`, the `TxHash` of
the `VoteQuestion` is the `PollTxHash` of the `VoteOption`. -/
theorem GetPostsByTxHashes_vote_attached (d : Db) (txHashes : List Bytes)
    (selfPkHash : Bytes) (post : Post)
    (hpost : post ∈ (GetPostsByTxHashes d txHashes selfPkHash).1) :
    ∃ memoPosts memoPollVotes memoPollOptions memoPollQuestions,
      d.GetPostsByTxHashes txHashes = .ok memoPosts ∧
      d.GetMemoPollVotesByTxHashes (GetPostsByTxHashes.hashes memoPosts).2
        = .ok memoPollVotes ∧
      d.GetMemoPollOptionsByTxHashes (GetPostsByTxHashes.pollOptionTxHashes memoPollVotes)
        = .ok memoPollOptions ∧
      d.GetPostsByTxHashes (GetPostsByTxHashes.pollTxHashes memoPollOptions)
        = .ok memoPollQuestions ∧
      (post.Memo.IsVote = false → post.VoteOption = none ∧ post.VoteQuestion = none) ∧
      (post.VoteQuestion ≠ none → post.VoteOption ≠ none) ∧
      (∀ o, post.VoteOption = some o →
        o ∈ memoPollOptions ∧
          ∃ v ∈ memoPollVotes, v.TxHash = post.Memo.TxHash ∧ o.TxHash = v.OptionTxHash) ∧
      (∀ q, post.VoteQuestion = some q →
        q ∈ memoPollQuestions ∧
          ∃ o ∈ memoPollOptions, ∃ v ∈ memoPollVotes,
            v.TxHash = post.Memo.TxHash ∧ o.TxHash = v.OptionTxHash ∧
              q.TxHash = o.PollTxHash) ∧
      ((memoPollVotes.map fun v => v.TxHash).Nodup →
        (memoPollOptions.map fun o => o.TxHash).Nodup →
        ∀ q o, post.VoteQuestion = some q → post.VoteOption = some o →
          q.TxHash = o.PollTxHash) := by
  obtain ⟨memoPosts, memoPollVotes, memoPollOptions, memoPollQuestions, setNames,
    txHashCounts, h1, h2, h3, h4, h5, h6⟩ :=
    GetPostsByTxHashes.lookups_of_mem d txHashes selfPkHash post hpost
  rw [GetPostsByTxHashes.eq_build d txHashes selfPkHash memoPosts memoPollVotes
    memoPollOptions memoPollQuestions setNames txHashCounts h1 h2 h3 h4 h5 h6,
    GetPostsByTxHashes.build_eq] at hpost
  obtain ⟨memoPost, -, rfl⟩ := List.mem_map.mp hpost
  obtain ⟨i1, i2, i3⟩ := GetPostsByTxHashes.vote_invariant memoPollVotes memoPollOptions
    memoPollQuestions memoPost
  refine ⟨memoPosts, memoPollVotes, memoPollOptions, memoPollQuestions, h1, h2, h3, h4,
    ?_, i1, i2, i3, ?_⟩
  · intro hVote
    have hVote' : memoPost.IsVote = false := hVote
    simp [GetPostsByTxHashes.vote, hVote']
  · intro hvotes hoptions q o hq ho
    obtain ⟨ho1, v, hv, hvm, hom⟩ := i2 o ho
    obtain ⟨-, o', ho', v', hv', hvm', hom', hqm⟩ := i3 q hq
    have hvv : v' = v := List.inj_on_of_nodup_map hvotes hv' hv (hvm'.trans hvm.symm)
    subst hvv
    have hoo : o' = o := List.inj_on_of_nodup_map hoptions ho' ho1 (hom'.trans hom.symm)
    subst hoo
    exact hqm

/-- C7, amended, on the vote post `[1]` with one vote, one option and its question. -/
theorem GetPostsByTxHashes_vote_attached_witness :
    Post.sampleVoted ∈ (GetPostsByTxHashes Db.oneVote [[1]] []).1 ∧
    ∃ memoPollOptions,
      Db.oneVote.GetMemoPollOptionsByTxHashes
        (GetPostsByTxHashes.pollOptionTxHashes [⟨[1], [3]⟩]) = .ok memoPollOptions ∧
      ∀ o, Post.sampleVoted.VoteOption = some o → o ∈ memoPollOptions :=
  ⟨List.mem_singleton.mpr rfl,
   match GetPostsByTxHashes_vote_attached Db.oneVote [[1]] [] Post.sampleVoted
      (List.mem_singleton.mpr rfl) with
   | ⟨_, memoPollVotes, memoPollOptions, _, _, h2, h3, _, _, _, h7, _⟩ =>
     have hv : memoPollVotes = [⟨[1], [3]⟩] := (Except.ok.inj h2).symm
     ⟨memoPollOptions, hv ▸ h3, fun o ho => (h7 o ho).1⟩⟩

/-- C8: when the feed lookup of `GetPostsFeed` succeeds. If every failing name lookup
fails with a record-not-found error and every count lookup succeeds, `GetPostsFeed`
returns no error and one post per record, and a post has the empty `Name` when the
name lookup of its author fails or finds no record, and the `Name` of the record when
one is found. If the name lookup of some author fails with an error that is not a
record-not-found error, `GetPostsFeed` returns an error and no posts. -/
theorem GetPostsFeed_missing_name (d : Db) (selfPkHash : Bytes) (offset : Nat)
    (dbPosts : List MemoPost)
    (hFeed : d.GetPostsFeedForPkHash selfPkHash offset = .ok dbPosts) :
    ((∀ dbPost ∈ dbPosts, ∀ err,
        d.GetNameForPkHash dbPost.PkHash = .error err → d.IsRecordNotFoundError err = true) →
      (∀ dbPost ∈ dbPosts, ∃ cnt, d.GetPostReplyCount dbPost.TxHash = .ok cnt) →
      (GetPostsFeed d selfPkHash offset).2 = none ∧
      (GetPostsFeed d selfPkHash offset).1.map Post.Memo = dbPosts ∧
      ∀ post ∈ (GetPostsFeed d selfPkHash offset).1,
        (∀ err, d.GetNameForPkHash post.Memo.PkHash = .error err → post.Name = "") ∧
        (d.GetNameForPkHash post.Memo.PkHash = .ok none → post.Name = "") ∧
        (∀ setName, d.GetNameForPkHash post.Memo.PkHash = .ok (some setName) →
          post.Name = setName.Name)) ∧
    ((∃ dbPost ∈ dbPosts, ∃ err,
        d.GetNameForPkHash dbPost.PkHash = .error err ∧ d.IsRecordNotFoundError err = false) →
      (GetPostsFeed d selfPkHash offset).1 = [] ∧
      (GetPostsFeed d selfPkHash offset).2 ≠ none) := by
  have hfound : GetPostsFeed.foundPkHashes dbPosts = dbPosts.map fun dbPost => dbPost.PkHash :=
    collectPkHashes_eq _
  refine ⟨fun hNames hCounts => ?_, fun hBad => ?_⟩
  · obtain ⟨names, hnames, hget⟩ := GetPostsFeed.names_ok d
      (GetPostsFeed.foundPkHashes dbPosts) [] (by
        intro pkHash hmem err herr
        rw [hfound] at hmem
        obtain ⟨dbPost, hdb, rfl⟩ := List.mem_map.mp hmem
        exact hNames dbPost hdb err herr)
    obtain ⟨built, hbuilt, hmemo, hname⟩ :=
      GetPostsFeed.posts_ok d selfPkHash names dbPosts [] hCounts
    have hres : GetPostsFeed d selfPkHash offset = (built, none) := by
      rw [GetPostsFeed]
      simp only [hFeed, hnames, hbuilt, List.nil_append]
    rw [hres]
    refine ⟨rfl, hmemo, ?_⟩
    intro post hpost
    have hmem : post.Memo.PkHash ∈ GetPostsFeed.foundPkHashes dbPosts := by
      rw [hfound, ← hmemo]
      exact List.mem_map.mpr ⟨post.Memo, List.mem_map.mpr ⟨post, hpost, rfl⟩, rfl⟩
    have hn := hname post hpost
    rw [hget, if_pos hmem] at hn
    have hempty : NameMap.get [] post.Memo.PkHash = none := rfl
    rw [hempty] at hn
    refine ⟨?_, ?_, ?_⟩
    · intro err herr
      rw [hn]
      simp [GetPostsFeed.nameOf, herr]
    · intro herr
      rw [hn]
      simp [GetPostsFeed.nameOf, herr]
    · intro setName herr
      rw [hn]
      simp [GetPostsFeed.nameOf, herr]
  · obtain ⟨err, herr⟩ := GetPostsFeed.names_error d (GetPostsFeed.foundPkHashes dbPosts) [] (by
      obtain ⟨dbPost, hdb, e, he⟩ := hBad
      refine ⟨dbPost.PkHash, ?_, e, he⟩
      rw [hfound]
      exact List.mem_map.mpr ⟨dbPost, hdb, rfl⟩)
    rw [GetPostsFeed]
    simp [hFeed, herr]

/-- C8, on the posts of two authors, `[7]` with a name and `[8]` without a name
record, and on a name lookup that is down. -/
theorem GetPostsFeed_missing_name_witness :
    (GetPostsFeed Db.twoAuthors [9] 0).2 = none ∧
    (GetPostsFeed Db.twoAuthors [9] 0).1.map Post.Name = ["alice", ""] ∧
    (GetPostsFeed { Db.twoAuthors with GetNameForPkHash := Db.down.GetNameForPkHash } [9] 0).1
      = [] :=
  ⟨((GetPostsFeed_missing_name Db.twoAuthors [9] 0
      [MemoPost.sample [1] [7], MemoPost.sample [2] [8]] rfl).1
      (by
        intro dbPost hdb err herr
        simp only [List.mem_cons, List.mem_singleton, List.not_mem_nil, or_false] at hdb
        rcases hdb with rfl | rfl
        · cases herr
        · cases herr
          rfl)
      (fun _ _ => ⟨0, rfl⟩)).1,
   rfl,
   ((GetPostsFeed_missing_name
      { Db.twoAuthors with GetNameForPkHash := Db.down.GetNameForPkHash } [9] 0
      [MemoPost.sample [1] [7], MemoPost.sample [2] [8]] rfl).2
      ⟨MemoPost.sample [1] [7], List.mem_cons_self _ _, ⟨["down"]⟩, rfl, rfl⟩).1⟩

/-- C9: on two posts of the same author, the list that `AttachNamesToPosts` passes to
`db.GetNamesForPkHashes`, the list that `AttachProfilePicsToPosts` passes to
`db.GetPicsForPkHashes` and the list that `GetPostsFeed` runs through for the name
lookups all hold the hash of the author twice. -/
theorem namePkHashes_repeats_author :
    AttachNamesToPosts.namePkHashes
      [Post.zero (MemoPost.sample [1] [7]) [], Post.zero (MemoPost.sample [2] [7]) []]
      = [[7], [7]] ∧
    AttachProfilePicsToPosts.namePkHashes
      [Post.zero (MemoPost.sample [1] [7]) [], Post.zero (MemoPost.sample [2] [7]) []]
      = [[7], [7]] ∧
    GetPostsFeed.foundPkHashes [MemoPost.sample [1] [7], MemoPost.sample [2] [7]]
      = [[7], [7]] ∧
    ¬ (AttachNamesToPosts.namePkHashes
      [Post.zero (MemoPost.sample [1] [7]) [], Post.zero (MemoPost.sample [2] [7]) []]).Nodup := by
  refine ⟨rfl, rfl, rfl, ?_⟩
  decide

/-- C10: `GetLastLikeId` is at least the `Id` of every like, is 0 when there are no
likes, is 0 or the `Id` of one of the likes, and is the same for two posts whose
likes are the same up to their order. -/
theorem GetLastLikeId_max (p : Post) :
    (∀ like ∈ p.Likes, like.Id ≤ p.GetLastLikeId) ∧
    (p.Likes = [] → p.GetLastLikeId = 0) ∧
    (p.GetLastLikeId = 0 ∨ ∃ like ∈ p.Likes, like.Id = p.GetLastLikeId) ∧
    (∀ q : Post, q.Likes.Perm p.Likes → q.GetLastLikeId = p.GetLastLikeId) := by
  have key : ∀ r : Post, (∀ like ∈ r.Likes, like.Id ≤ r.GetLastLikeId) ∧
      (r.GetLastLikeId = 0 ∨ ∃ like ∈ r.Likes, like.Id = r.GetLastLikeId) := fun r =>
    ⟨(GetLastLikeId.foldl_spec r.Likes 0).2.1, (GetLastLikeId.foldl_spec r.Likes 0).2.2⟩
  refine ⟨(key p).1, ?_, (key p).2, ?_⟩
  · intro h
    simp [Post.GetLastLikeId, h]
  · intro q hperm
    apply Nat.le_antisymm
    · rcases (key q).2 with h0 | ⟨like, hlike, hid⟩
      · omega
      · rw [← hid]
        exact (key p).1 like (hperm.mem_iff.mp hlike)
    · rcases (key p).2 with h0 | ⟨like, hlike, hid⟩
      · omega
      · rw [← hid]
        exact (key q).1 like (hperm.mem_iff.mpr hlike)

/-- C11: `SetShowMediaForPosts` on any posts and user id. Every post keeps its place,
and differs from the post before the call at most in its own `ShowMedia` and in the
`ShowMedia` of its parent: no other field of the post or of the parent changes, and a
parent is neither added nor removed. A `ShowMedia` that was true, of a post or of a
parent, is true afterwards. For the user id 0 no error is returned, no settings are
asked for, and `ShowMedia` is true on every post and on every parent. For another
user id whose settings load, no error is returned, and `ShowMedia` is true on every
post and on every parent when `Integrations` is `SettingIntegrationsAll`, while the
posts are unchanged otherwise. -/
theorem SetShowMediaForPosts_only_on (c : Settings) (posts : List Post) (userId : Nat) :
    List.Forall₂
      (fun before after =>
        (∃ showMedia parentShowMedia,
          after = { before with
            ShowMedia := showMedia
            Parent := before.Parent.map fun parent =>
              { parent with ShowMedia := parentShowMedia } }) ∧
        (before.ShowMedia = true → after.ShowMedia = true) ∧
        (∀ parent, before.Parent = some parent → parent.ShowMedia = true →
          ∃ parent', after.Parent = some parent' ∧ parent'.ShowMedia = true))
      posts (SetShowMediaForPosts c posts userId).posts ∧
    (userId = 0 →
      (SetShowMediaForPosts c posts userId).err = none ∧
      (SetShowMediaForPosts c posts userId).asked = [] ∧
      (SetShowMediaForPosts c posts userId).posts
        = posts.map fun post =>
            { post with
              ShowMedia := true
              Parent := post.Parent.map fun parent => { parent with ShowMedia := true } }) ∧
    (∀ settings, userId ≠ 0 → c.GetUserSettings userId = .ok settings →
      (SetShowMediaForPosts c posts userId).err = none ∧
      (settings.Integrations = c.SettingIntegrationsAll →
        (SetShowMediaForPosts c posts userId).posts
          = posts.map fun post =>
              { post with
                ShowMedia := true
                Parent := post.Parent.map fun parent => { parent with ShowMedia := true } }) ∧
      (settings.Integrations ≠ c.SettingIntegrationsAll →
        (SetShowMediaForPosts c posts userId).posts = posts)) := by
  have hshow : posts.map SetShowMediaForPosts.show
      = posts.map fun post =>
          { post with
            ShowMedia := true
            Parent := post.Parent.map fun parent => { parent with ShowMedia := true } } :=
    List.map_congr_left fun post _ => (SetShowMediaForPosts.show_frame post).2.2.2
  have hon : List.Forall₂
      (fun before after =>
        (∃ showMedia parentShowMedia,
          after = { before with
            ShowMedia := showMedia
            Parent := before.Parent.map fun parent =>
              { parent with ShowMedia := parentShowMedia } }) ∧
        (before.ShowMedia = true → after.ShowMedia = true) ∧
        (∀ parent, before.Parent = some parent → parent.ShowMedia = true →
          ∃ parent', after.Parent = some parent' ∧ parent'.ShowMedia = true))
      posts (posts.map SetShowMediaForPosts.show) := by
    rw [List.forall₂_map_right_iff]
    apply List.forall₂_same.mpr
    intro post _
    obtain ⟨h1, h2, -, h4⟩ := SetShowMediaForPosts.show_frame post
    exact ⟨⟨true, true, h4⟩, fun _ => h1, fun parent hp _ => ⟨_, h2 parent hp, rfl⟩⟩
  have hoff : List.Forall₂
      (fun before after =>
        (∃ showMedia parentShowMedia,
          after = { before with
            ShowMedia := showMedia
            Parent := before.Parent.map fun parent =>
              { parent with ShowMedia := parentShowMedia } }) ∧
        (before.ShowMedia = true → after.ShowMedia = true) ∧
        (∀ parent, before.Parent = some parent → parent.ShowMedia = true →
          ∃ parent', after.Parent = some parent' ∧ parent'.ShowMedia = true))
      posts posts := by
    apply List.forall₂_same.mpr
    intro post _
    exact ⟨Post.with_own_showMedia post, fun h => h, fun parent hp hs => ⟨parent, hp, hs⟩⟩
  refine ⟨?_, ?_, ?_⟩
  · unfold SetShowMediaForPosts
    split_ifs with h0
    · exact hon
    · cases hs : c.GetUserSettings userId with
      | error err => exact hoff
      | ok settings =>
        by_cases hall : settings.Integrations = c.SettingIntegrationsAll
        · simp only [hall, if_true]
          exact hon
        · simp only [hall, if_false]
          exact hoff
  · intro h0
    simp only [SetShowMediaForPosts, h0, if_true, hshow]
    exact ⟨trivial, trivial, trivial⟩
  · intro settings h0 hs
    simp only [SetShowMediaForPosts, h0, if_false, hs]
    refine ⟨?_, ?_, ?_⟩
    · split_ifs <;> rfl
    · intro hall
      rw [if_pos hall]
      exact hshow
    · intro hall
      rw [if_neg hall]

/-- C11, on one post with a parent, for the user 4 who shows all media. -/
theorem SetShowMediaForPosts_only_on_witness :
    (SetShowMediaForPosts Settings.sample
        [{ Post.sampleChild [5] with Parent := some (Post.zero (MemoPost.sample [5] [8]) [9]) }]
        4).err = none ∧
    (SetShowMediaForPosts Settings.sample
        [{ Post.sampleChild [5] with Parent := some (Post.zero (MemoPost.sample [5] [8]) [9]) }]
        4).posts.map (fun post => (post.ShowMedia, post.Parent.map fun parent => parent.ShowMedia))
      = [(true, some true)] :=
  ⟨((SetShowMediaForPosts_only_on Settings.sample
      [{ Post.sampleChild [5] with Parent := some (Post.zero (MemoPost.sample [5] [8]) [9]) }]
      4).2.2 ⟨"all"⟩ (by decide) rfl).1,
   by
    rw [((SetShowMediaForPosts_only_on Settings.sample
      [{ Post.sampleChild [5] with Parent := some (Post.zero (MemoPost.sample [5] [8]) [9]) }]
      4).2.2 ⟨"all"⟩ (by decide) rfl).2.1 rfl]
    rfl⟩

end Memo
